import Mathlib

/-!
Verification of the cross-context SCM state synchronization protocol of this
repository against its design specification.

The development shallowly embeds the two sides of the protocol:

* the Provider Side (`packages/plugin-ext/src/plugin/scm.ts`): resource-state
  comparison, the per-group snapshot differ (`_takeResourceStateSnapshot`),
  handle allocation, the batch flush methods (`eventuallyAddResourceGroups`,
  `eventuallyUpdateResourceStates`), input box and selection handling
  (`ScmExtImpl`);
* the Mirror Side (`packages/plugin-ext/src/main/browser/scm-main.ts`):
  group reconstruction and splice application (`$spliceGroupResourceStates`),
  and the handle-keyed `ScmMainImpl` operations.

JavaScript runtime behaviour that matters to the embedded code (truthiness of
`undefined`/`''`, `===` on optionals, stable `Array.sort`, `Array.splice`
clamping) is modelled explicitly.  Helpers of the repository that are imported
by the two files but whose sources are outside the reviewed tree
(`sortedDiff` of `common/arrays`, `comparePaths` of `common/paths-util`,
`toSafeCommand` of the command registry converter) are modelled from the
specification text and marked as such on their doc comments.
-/

/-! ## JavaScript-flavoured primitives -/

/-- Sign-style comparison of two characters by code point, the primitive under
JavaScript string relational operators. -/
def charCmp (a b : Char) : Int :=
  if a < b then -1 else if b < a then 1 else 0

/-- Lexicographic comparison of character lists; models JavaScript string
comparison (`<`, and our model of `localeCompare`). -/
def charListCmp : List Char → List Char → Int
  | [], [] => 0
  | [], _ :: _ => -1
  | _ :: _, [] => 1
  | a :: al, b :: bl =>
    let c := charCmp a b
    if c = 0 then charListCmp al bl else c

/-- Comparison of strings by their character lists. -/
def strCmp (a b : String) : Int := charListCmp a.data b.data

/-- JavaScript `a < b` on strings. -/
def strLt (a b : String) : Bool := strCmp a b < 0

/-- JavaScript `a! < b!` applied to two optional strings: comparing with an
`undefined` operand yields `false`. -/
def jsLtOpt : Option String → Option String → Bool
  | some a, some b => strLt a b
  | _, _ => false

/-- JavaScript `a || b` for values where only absence is falsy. -/
def optOr {α : Type} : Option α → Option α → Option α
  | some x, _ => some x
  | none, b => b

/-- Lowercasing of a character list, used for case-insensitive path segments. -/
def lowerChars (cs : List Char) : List Char := cs.map Char.toLower

/-- Accumulating worker splitting a character list at `/` boundaries. -/
def splitSlashGo : List Char → List Char → List (List Char)
  | [], cur => [cur.reverse]
  | c :: rest, cur =>
    if c = '/' then cur.reverse :: splitSlashGo rest [] else splitSlashGo rest (c :: cur)

/-- Path-segment decomposition of a string at `/` separators. -/
def splitSlash (s : String) : List (List Char) := splitSlashGo s.data []

/-- One path segment compared against another, case-insensitively on demand. -/
def segCmp (ignoreCase : Bool) (a b : List Char) : Int :=
  if ignoreCase then charListCmp (lowerChars a) (lowerChars b)
  else charListCmp a b

/-- Lexicographic comparison of segment lists; a proper prefix orders first. -/
def segListCmp (ignoreCase : Bool) : List (List Char) → List (List Char) → Int
  | [], [] => 0
  | [], _ :: _ => -1
  | _ :: _, [] => 1
  | a :: al, b :: bl =>
    let c := segCmp ignoreCase a b
    if c = 0 then segListCmp ignoreCase al bl else c

/-- Modelled from the spec: `comparePaths` of `common/paths-util`, which is
imported by the Provider Side but is outside the reviewed sources.  The spec
describes it as a "case-insensitive, path-segment aware — not a raw string
compare" total order on source-location paths: paths are compared segment by
segment, optionally after case folding. -/
def comparePaths (a b : String) (ignoreCase : Bool) : Int :=
  segListCmp ignoreCase (splitSlash a) (splitSlash b)

/-! ## Data model (theia plugin API values crossing the boundary) -/

/-- A URI value as the embedding needs it: its file-system path (used by the
comparators) and its rendered string form (used by icon deduplication). -/
structure Uri where
  fsPath : String
  uriStr : String
deriving DecidableEq, Repr

/-- Conversion of a plain path string to a file URI (`URI.file`). -/
def Uri.file (p : String) : Uri := { fsPath := p, uriStr := "file://" ++ p }

/-- An icon path as declared by a plugin: either a raw string or a URI. -/
inductive IconPath where
  | str (s : String)
  | uri (u : Uri)
deriving DecidableEq, Repr

/-- Theme-specific decoration data (`SourceControlResourceThemableDecorations`). -/
structure ThemableDecorations where
  iconPath : Option IconPath
deriving DecidableEq, Repr

/-- Decorations of a resource state (`SourceControlResourceDecorations`). -/
structure Decorations where
  iconPath : Option IconPath
  strikeThrough : Option Bool
  faded : Option Bool
  tooltip : Option String
  light : Option ThemableDecorations
  dark : Option ThemableDecorations
deriving DecidableEq, Repr

/-- A command attached to a resource state or a source control.  The dynamic
`any[]` argument vector is embedded as a list of strings. -/
structure Command where
  command : Option String
  title : Option String
  tooltip : Option String
  arguments : Option (List String)
deriving DecidableEq, Repr

/-- One declared resource state (`SourceControlResourceState`). -/
structure ResourceState where
  resourceUri : Uri
  command : Option Command
  decorations : Option Decorations
  contextValue : Option String
deriving DecidableEq, Repr

/-! ## The resource-state total order (scm.ts lines 39-178) -/

/-- Embedding of `getIconResource`: a missing decoration object or a missing
`iconPath` yields nothing, a string icon path is converted with `URI.file`,
and a URI icon path passes through. -/
def getIconResource : Option IconPath → Option Uri
  | none => none
  | some (.str s) => some (Uri.file s)
  | some (.uri u) => some u

/-- JavaScript falsiness of an `iconPath` value (`!a.iconPath`): absent or the
empty string. -/
def iconFalsy : Option IconPath → Bool
  | none => true
  | some (.str s) => s.data.isEmpty
  | some (.uri _) => false

/-- The path under an icon path value (`typeof p === 'string' ? p : p.fsPath`). -/
def iconPathFs : IconPath → String
  | .str s => s
  | .uri u => u.fsPath

/-- Embedding of `compareResourceThemableDecorations`, acting on the
`iconPath` fields of the two compared decoration objects. -/
def compareResourceThemableDecorations (a b : Option IconPath) : Int :=
  if iconFalsy a && iconFalsy b then 0
  else if iconFalsy a then -1
  else if iconFalsy b then 1
  else
    match a, b with
    | some pa, some pb => comparePaths (iconPathFs pa) (iconPathFs pb) false
    | _, _ => 0

/-- The dark-theme tail of `compareResourceStatesDecorations`. -/
def compareDecorationsDark (a b : Decorations) : Int :=
  match a.dark, b.dark with
  | some da, some db => compareResourceThemableDecorations da.iconPath db.iconPath
  | some _, none => 1
  | none, some _ => -1
  | none, none => 0

/-- The light-theme stage of `compareResourceStatesDecorations`, falling
through to the dark-theme stage on a tie. -/
def compareDecorationsLightDark (a b : Decorations) : Int :=
  match a.light, b.light with
  | some la, some lb =>
    let r := compareResourceThemableDecorations la.iconPath lb.iconPath
    if r ≠ 0 then r else compareDecorationsDark a b
  | some _, none => 1
  | none, some _ => -1
  | none, none => compareDecorationsDark a b

/-- Embedding of `compareResourceStatesDecorations` (scm.ts lines 63-105).
Note the orientation of the strike-through and faded keys: a truthy flag
makes the comparison return `1`. -/
def compareResourceStatesDecorations (a b : Decorations) : Int :=
  if a.strikeThrough ≠ b.strikeThrough then
    (if a.strikeThrough = some true then 1 else -1)
  else if a.faded ≠ b.faded then
    (if a.faded = some true then 1 else -1)
  else if a.tooltip ≠ b.tooltip then
    strCmp (a.tooltip.getD "") (b.tooltip.getD "")
  else
    let r := compareResourceThemableDecorations a.iconPath b.iconPath
    if r ≠ 0 then r else compareDecorationsLightDark a b

/-- The element loop of `compareCommands` over two equal-length argument
vectors: the first unequal pair decides. -/
def compareArgsElems : List String → List String → Int
  | x :: xs, y :: ys =>
    if x = y then compareArgsElems xs ys
    else if strLt x y then -1 else 1
  | _, _ => 0

/-- The argument stage of `compareCommands`: both absent compare equal, an
absent vector orders first, shorter vectors order first, otherwise the
element loop decides. -/
def compareCommandsArgs (a b : Command) : Int :=
  match a.arguments, b.arguments with
  | none, none => 0
  | none, some _ => -1
  | some _, none => 1
  | some la, some lb =>
    if la.length ≠ lb.length then (la.length : Int) - (lb.length : Int)
    else compareArgsElems la lb

/-- Embedding of `compareCommands` (scm.ts lines 107-148). -/
def compareCommands (a b : Command) : Int :=
  if a.command ≠ b.command then (if jsLtOpt a.command b.command then -1 else 1)
  else if a.title ≠ b.title then (if jsLtOpt a.title b.title then -1 else 1)
  else if a.tooltip ≠ b.tooltip then
    (match a.tooltip, b.tooltip with
     | some x, some y => if strLt x y then -1 else 1
     | some _, none => 1
     | none, some _ => -1
     | none, none => compareCommandsArgs a b)
  else compareCommandsArgs a b

/-- The decoration stage of `compareResourceStates`: present decorations order
after absent ones, two present decoration objects are compared in full. -/
def compareStatesDecorations (a b : ResourceState) : Int :=
  match a.decorations, b.decorations with
  | some da, some db => compareResourceStatesDecorations da db
  | some _, none => 1
  | none, some _ => -1
  | none, none => 0

/-- Embedding of `compareResourceStates` (scm.ts lines 150-178): primary key
case-insensitive path comparison, then the attached command, then the
decorations. -/
def compareResourceStates (a b : ResourceState) : Int :=
  let result := comparePaths a.resourceUri.fsPath b.resourceUri.fsPath true
  if result ≠ 0 then result
  else
    match a.command, b.command with
    | some ca, some cb =>
      let r := compareCommands ca cb
      if r ≠ 0 then r else compareStatesDecorations a b
    | some _, none => 1
    | none, some _ => -1
    | none, none => compareStatesDecorations a b

/-! ## Stable sort (JavaScript `Array.prototype.sort`) -/

/-- Insertion of an element into a sorted accumulator after every element that
is less-or-equal, preserving the relative order of ties. -/
def insertSorted {α : Type} (le : α → α → Bool) (x : α) : List α → List α
  | [] => [x]
  | y :: ys => if le y x then y :: insertSorted le x ys else x :: y :: ys

/-- Stable sort by a three-way comparator; models the (stable) JavaScript
`Array.prototype.sort` used on `[...this._resourceStates]`. -/
def jsSortStable {α : Type} (cmp : α → α → Int) (l : List α) : List α :=
  l.foldl (fun acc x => insertSorted (fun y z => cmp y z ≤ 0) x acc) []

/-! ## Splices and the sorted-array differ -/

/-- An edit operation against an ordered sequence: at `start`, remove
`deleteCount` elements and insert `toInsert` (`ISplice`). -/
structure Splice (α : Type) where
  start : Nat
  deleteCount : Nat
  toInsert : List α
deriving DecidableEq, Repr

/-- The `pushSplice` helper of the differ, on an accumulator kept in reverse
order (most recent splice first): empty edits are dropped, an edit adjacent
to the most recent splice is merged into it. -/
def pushSpliceRev {α : Type} : List (Splice α) → Nat → Nat → List α → List (Splice α)
  | acc, _, 0, [] => acc
  | latest :: rest, s, d, ins =>
    if latest.start + latest.deleteCount = s then
      ⟨latest.start, latest.deleteCount + d, latest.toInsert ++ ins⟩ :: rest
    else ⟨s, d, ins⟩ :: latest :: rest
  | [], s, d, ins => [⟨s, d, ins⟩]

/-- Worker of the sorted diff.  The first argument is fuel making the
recursion structural; `sortedDiff` supplies enough for the walk over both
lists.  `bIdx` is the index into the original `before` array reached so far;
all emitted splice indices are relative to that original array. -/
def sortedDiffGo {α : Type} (cmp : α → α → Int) :
    Nat → Nat → List α → List α → List (Splice α) → List (Splice α)
  | _, bIdx, [], al, acc => (pushSpliceRev acc bIdx 0 al).reverse
  | _, bIdx, b :: bl, [], acc => (pushSpliceRev acc bIdx (b :: bl).length []).reverse
  | 0, _, _ :: _, _ :: _, acc => acc.reverse
  | fuel + 1, bIdx, b :: bl, a :: al, acc =>
    if cmp b a = 0 then sortedDiffGo cmp fuel (bIdx + 1) bl al acc
    else if cmp b a < 0 then
      sortedDiffGo cmp fuel (bIdx + 1) bl (a :: al) (pushSpliceRev acc bIdx 1 [])
    else sortedDiffGo cmp fuel bIdx (b :: bl) al (pushSpliceRev acc bIdx 0 [a])

/-- Modelled from the spec: `sortedDiff` of `common/arrays`, imported by the
Provider Side but outside the reviewed sources.  Per the spec it walks the
previous and the new sorted snapshots in parallel and produces "an ordered
list of {start index, delete count, inserted items} edits against the
*previous* array", merging adjacent edits. -/
def sortedDiff {α : Type} (before after : List α) (cmp : α → α → Int) : List (Splice α) :=
  sortedDiffGo cmp (before.length + after.length) 0 before after []

/-- Application of one splice to a list (`Array.prototype.splice`; start and
delete count clamp at the ends as in JavaScript). -/
def applySplice {α : Type} (l : List α) (s : Splice α) : List α :=
  l.take s.start ++ s.toInsert ++ l.drop (s.start + s.deleteCount)

/-- Sequential application of a list of splices, each interpreted against the
state left by its predecessors. -/
def applySplices {α : Type} (l : List α) (sps : List (Splice α)) : List α :=
  sps.foldl applySplice l

/-! ## Wire encoding of resource states (scm.ts lines 363-433) -/

/-- The flat wire tuple for one inserted resource (`ScmRawResource`). -/
structure RawResource where
  handle : Nat
  sourceUri : Uri
  icons : List Uri
  tooltip : String
  strikeThrough : Bool
  faded : Bool
  contextValue : String
  command : Option Command
deriving DecidableEq, Repr

/-- Modelled from the spec: `toSafeCommand` of the command registry converter
(outside the reviewed sources).  For the built-in trusted identifiers — the
only identifiers the snapshot routes through it — the command "is forwarded
as a plain descriptor". -/
def toSafeCommand (c : Command) : Command := c

/-- The wire encoding of one inserted resource state, given its freshly
allocated handle: the icon pair (light icon, then the dark icon when it
differs), the defaulted tooltip/flags/context value, and the command, which
crosses the wire only for the trusted `theia.open`/`theia.diff` identifiers. -/
def encodeRawResource (handle : Nat) (r : ResourceState) : RawResource :=
  let iconUri := getIconResource (r.decorations.bind Decorations.iconPath)
  let lightIconUri :=
    optOr (r.decorations.bind fun d => getIconResource (d.light.bind ThemableDecorations.iconPath)) iconUri
  let darkIconUri :=
    optOr (r.decorations.bind fun d => getIconResource (d.dark.bind ThemableDecorations.iconPath)) iconUri
  let lightPart := match lightIconUri with
    | some u => [u]
    | none => []
  let darkPart := match darkIconUri, lightIconUri with
    | some du, some lu => if du.uriStr ≠ lu.uriStr then [du] else []
    | some du, none => [du]
    | none, _ => []
  { handle := handle
    sourceUri := r.resourceUri
    icons := lightPart ++ darkPart
    tooltip := (r.decorations.bind Decorations.tooltip).getD ""
    strikeThrough := (r.decorations.map fun d => d.strikeThrough == some true).getD false
    faded := (r.decorations.map fun d => d.faded == some true).getD false
    contextValue := r.contextValue.getD ""
    command :=
      match r.command with
      | some c =>
        if c.command = some "theia.open" ∨ c.command = some "theia.diff" then
          some (toSafeCommand c)
        else none
      | none => none }

/-- Provider-side state of one resource group
(`ExtHostSourceControlResourceGroup`): the declared resource list, the
last-sent sorted snapshot with the aligned wire handles, the per-group handle
pool, and the three per-handle maps. -/
structure ExtGroup where
  handle : Nat
  id : String
  label : String
  hideWhenEmpty : Option Bool
  resourceHandlePool : Nat
  resourceStates : List ResourceState
  resourceStatesMap : List (Nat × ResourceState)
  resourceStatesCommandsMap : List (Nat × Command)
  resourceStatesDisposablesMap : List Nat
  handlesSnapshot : List Nat
  resourceSnapshot : List ResourceState
  disposed : Bool
deriving Repr

/-- A freshly constructed resource group: empty state, handle pool at zero. -/
def mkExtGroup (gh : Nat) (id label : String) : ExtGroup :=
  { handle := gh, id := id, label := label, hideWhenEmpty := none
    resourceHandlePool := 0, resourceStates := []
    resourceStatesMap := [], resourceStatesCommandsMap := []
    resourceStatesDisposablesMap := [], handlesSnapshot := []
    resourceSnapshot := [], disposed := false }

/-- The group features sent on registration (`get features`). -/
structure GroupFeatures where
  hideWhenEmpty : Option Bool
deriving DecidableEq, Repr

/-- Feature projection of a group. -/
def ExtGroup.features (g : ExtGroup) : GroupFeatures := ⟨g.hideWhenEmpty⟩

/-- Processing of one inserted resource state inside the snapshot: allocate
the next handle, record the state in the resource map, route the command to
the wire (trusted) or to the command map (any other), and build the wire
tuple. -/
def snapshotInsertOne (g : ExtGroup) (r : ResourceState) : ExtGroup × (RawResource × Nat) :=
  let handle := g.resourceHandlePool
  let raw := encodeRawResource handle r
  let g1 := { g with
    resourceHandlePool := handle + 1
    resourceStatesMap := (handle, r) :: g.resourceStatesMap }
  let g2 :=
    match r.command with
    | some c =>
      if c.command = some "theia.open" ∨ c.command = some "theia.diff" then
        { g1 with resourceStatesDisposablesMap := handle :: g1.resourceStatesDisposablesMap }
      else
        { g1 with resourceStatesCommandsMap := (handle, c) :: g1.resourceStatesCommandsMap }
    | none => g1
  (g2, (raw, handle))

/-- Processing of all inserted resource states of one diff, left to right. -/
def snapshotInsertMany (g : ExtGroup) : List ResourceState → ExtGroup × List (RawResource × Nat)
  | [] => (g, [])
  | r :: rest =>
    let (g1, p) := snapshotInsertOne g r
    let (g2, l) := snapshotInsertMany g1 rest
    (g2, p :: l)

/-- Processing of the diff list: each diff keeps its start and delete count,
its insertions are encoded with freshly allocated handles. -/
def snapshotProcessDiffs (g : ExtGroup) :
    List (Splice ResourceState) → ExtGroup × List (Splice (RawResource × Nat))
  | [] => (g, [])
  | d :: rest =>
    let (g1, ins) := snapshotInsertMany g d.toInsert
    let (g2, l) := snapshotProcessDiffs g1 rest
    (g2, ⟨d.start, d.deleteCount, ins⟩ :: l)

/-- Projection of a processed diff to the wire splice (`ScmRawResourceSplice`). -/
def rawSpliceOf (s : Splice (RawResource × Nat)) : Splice RawResource :=
  ⟨s.start, s.deleteCount, s.toInsert.map Prod.fst⟩

/-- Projection of a processed diff to its handle splice. -/
def handleSpliceOf (s : Splice (RawResource × Nat)) : Splice Nat :=
  ⟨s.start, s.deleteCount, s.toInsert.map Prod.snd⟩

/-- One step of the handle bookkeeping loop: splice the new handles into the
handle snapshot and retire the deleted handles from the three maps. -/
def spliceHandles (g : ExtGroup) (s : Splice Nat) : ExtGroup :=
  let deleted := (g.handlesSnapshot.drop s.start).take s.deleteCount
  { g with
    handlesSnapshot := applySplice g.handlesSnapshot s
    resourceStatesMap := g.resourceStatesMap.filter fun p => !(deleted.contains p.1)
    resourceStatesCommandsMap := g.resourceStatesCommandsMap.filter fun p => !(deleted.contains p.1)
    resourceStatesDisposablesMap := g.resourceStatesDisposablesMap.filter fun h => !(deleted.contains h) }

/-- Embedding of `_takeResourceStateSnapshot` (scm.ts lines 363-433): sort the
declared list, diff it against the previous sorted snapshot, encode the
insertions with fresh handles, replay the splices in reverse over the aligned
handle list (retiring deleted handles), store the new snapshot, and return
the wire splices in diff order. -/
def takeResourceStateSnapshot (g : ExtGroup) : ExtGroup × List (Splice RawResource) :=
  let snapshot := jsSortStable compareResourceStates g.resourceStates
  let diffs := sortedDiff g.resourceSnapshot snapshot compareResourceStates
  let (g1, splices) := snapshotProcessDiffs g diffs
  let rawResourceSplices := splices.map rawSpliceOf
  let g2 := (splices.reverse).foldl (fun gg s => spliceHandles gg (handleSpliceOf s)) g1
  ({ g2 with resourceSnapshot := snapshot }, rawResourceSplices)

/-! ## Mirror-side reconstruction (scm-main.ts) -/

/-- Decorations of a mirror resource as decoded from the wire tuple. -/
structure MirrorDecorations where
  icon : Option Uri
  iconDark : Option Uri
  tooltip : String
  strikeThrough : Bool
  faded : Bool
deriving DecidableEq, Repr

/-- One reconstructed resource on the Mirror Side (`PluginScmResource`). -/
structure MirrorResource where
  sourceControlHandle : Nat
  groupHandle : Nat
  handle : Nat
  sourceUri : Uri
  decorations : MirrorDecorations
  contextValue : Option String
  command : Option Command
deriving DecidableEq, Repr

/-- Decoding of one wire tuple into a mirror resource
(`$spliceGroupResourceStates`, scm-main.ts lines 229-251): the first icon is
the default, the second falls back to the first, and an empty context value
decodes to absence. -/
def toMirrorResource (sch gh : Nat) (raw : RawResource) : MirrorResource :=
  let icon := raw.icons.head?
  let iconDark := optOr (raw.icons.drop 1).head? icon
  { sourceControlHandle := sch
    groupHandle := gh
    handle := raw.handle
    sourceUri := raw.sourceUri
    decorations :=
      { icon := icon, iconDark := iconDark, tooltip := raw.tooltip
        strikeThrough := raw.strikeThrough, faded := raw.faded }
    contextValue := if raw.contextValue = "" then none else some raw.contextValue
    command := raw.command }

/-- Application of one received splice batch to a group's mirror resource
list: the batch is reversed before its splices are applied one by one
(scm-main.ts lines 216-259). -/
def mirrorApplyBatch (sch gh : Nat) (resources : List MirrorResource)
    (sps : List (Splice RawResource)) : List MirrorResource :=
  applySplices resources
    ((sps.map fun s => Splice.mk s.start s.deleteCount (s.toInsert.map (toMirrorResource sch gh))).reverse)

/-- Application of a received splice batch under the spec's literal
left-to-right sequential reading, with each start index interpreted against
the state left by the prior splices of the batch (no reversal). -/
def mirrorApplyBatchLTR (sch gh : Nat) (resources : List MirrorResource)
    (sps : List (Splice RawResource)) : List MirrorResource :=
  applySplices resources
    (sps.map fun s => Splice.mk s.start s.deleteCount (s.toInsert.map (toMirrorResource sch gh)))

/-! ## Association lists (the handle-keyed maps of both sides) -/

/-- Lookup in a handle-keyed association list (`Map.get`). -/
def lookupA {β : Type} : List (Nat × β) → Nat → Option β
  | [], _ => none
  | (k, v) :: rest, h => if k = h then some v else lookupA rest h

/-- Update of a handle-keyed association list in place, appending when the
key is new (`Map.set`). -/
def setA {β : Type} : List (Nat × β) → Nat → β → List (Nat × β)
  | [], h, v => [(h, v)]
  | (k, w) :: rest, h, v => if k = h then (h, v) :: rest else (k, w) :: setA rest h v

/-- Deletion from a handle-keyed association list (`Map.delete`). -/
def removeA {β : Type} (l : List (Nat × β)) (h : Nat) : List (Nat × β) :=
  l.filter fun p => !(p.1 == h)

/-! ## Provider-side source control and its batch flushes (scm.ts lines 441-644) -/

/-- The provider-side input box state (`ScmInputBoxImpl`); the validation
callback is carried as an optional function from (value, cursor) to an
optional (message, severity) pair. -/
structure InputBox where
  value : String
  placeholder : String
  validateInput : Option (String → Nat → Option (String × Nat))

/-- Provider-side state of one source control (`ExtHostSourceControl`):
every live group's state keyed by handle, the set of handles registered in
`_groups` (equivalently: with the update listener installed), the two pending
sets of the batch flushes, the selection flag and the input box. -/
structure ExtSourceControl where
  handle : Nat
  id : String
  label : String
  groupStore : List (Nat × ExtGroup)
  registered : List Nat
  createdPending : List Nat
  updatedPending : List Nat
  selected : Bool
  inputBox : InputBox

/-- The outbound wire messages the flush methods can produce. -/
inductive WireMsg where
  | registerGroups (scHandle : Nat)
      (groups : List (Nat × String × String × GroupFeatures))
      (splices : List (Nat × List (Splice RawResource)))
  | spliceResourceStates (scHandle : Nat)
      (splices : List (Nat × List (Splice RawResource)))
deriving DecidableEq, Repr

/-- One step of the loop of `eventuallyAddResourceGroups`: take the group's
first snapshot, register it, collect its metadata and (when non-empty) its
splices. -/
def addGroupsStep
    (st : ExtSourceControl × List (Nat × String × String × GroupFeatures) ×
          List (Nat × List (Splice RawResource)))
    (gh : Nat) :
    ExtSourceControl × List (Nat × String × String × GroupFeatures) ×
      List (Nat × List (Splice RawResource)) :=
  match lookupA st.1.groupStore gh with
  | none => st
  | some g =>
    let (g1, snapshot) := takeResourceStateSnapshot g
    ( { st.1 with
          groupStore := setA st.1.groupStore gh g1
          registered := st.1.registered ++ [gh] },
      st.2.1 ++ [(gh, g.id, g.label, g.features)],
      if snapshot.length > 0 then st.2.2 ++ [(gh, snapshot)] else st.2.2 )

/-- Embedding of `eventuallyAddResourceGroups` (scm.ts lines 572-605; the
`@debounce(100)` decorator is commented out in the source, so the method runs
synchronously whenever called): every pending created group is snapshotted
and registered, and a single `$registerGroups` message is sent —
unconditionally, even when nothing is pending. -/
def eventuallyAddResourceGroups (sc : ExtSourceControl) : ExtSourceControl × List WireMsg :=
  let (sc1, groups, splices) := sc.createdPending.foldl addGroupsStep (sc, [], [])
  ({ sc1 with createdPending := [] },
   [WireMsg.registerGroups sc.handle groups splices])

/-- One step of the loop of `eventuallyUpdateResourceStates`: snapshot the
dirty group and collect its splices when the diff is non-empty. -/
def updateGroupsStep
    (st : ExtSourceControl × List (Nat × List (Splice RawResource)))
    (gh : Nat) :
    ExtSourceControl × List (Nat × List (Splice RawResource)) :=
  match lookupA st.1.groupStore gh with
  | none => st
  | some g =>
    let (g1, snapshot) := takeResourceStateSnapshot g
    ({ st.1 with groupStore := setA st.1.groupStore gh g1 },
     if snapshot.length = 0 then st.2 else st.2 ++ [(gh, snapshot)])

/-- Embedding of `eventuallyUpdateResourceStates` (scm.ts lines 607-626;
debounce likewise disabled): every dirty group is snapshotted, and a single
`$spliceResourceStates` message is sent when at least one group produced a
non-empty splice set. -/
def eventuallyUpdateResourceStates (sc : ExtSourceControl) : ExtSourceControl × List WireMsg :=
  let (sc1, splices) := sc.updatedPending.foldl updateGroupsStep (sc, [])
  ({ sc1 with updatedPending := [] },
   if splices.length > 0 then [WireMsg.spliceResourceStates sc.handle splices] else [])

/-- Embedding of `createResourceGroup` (scm.ts lines 564-570): allocate the
next group handle from the class-wide pool, create the group, mark it
pending, and run the (undebounced) registration flush immediately.  Returns
the advanced pool, the new source-control state and the emitted messages. -/
def createResourceGroup (groupHandlePool : Nat) (sc : ExtSourceControl) (id label : String) :
    Nat × ExtSourceControl × List WireMsg :=
  let gh := groupHandlePool
  let g := mkExtGroup gh id label
  let sc1 := { sc with
    groupStore := sc.groupStore ++ [(gh, g)]
    createdPending := sc.createdPending ++ [gh] }
  let (sc2, msgs) := eventuallyAddResourceGroups sc1
  (groupHandlePool + 1, sc2, msgs)

/-- Embedding of the `resourceStates` setter together with the update
listener installed at registration: store the new declared list; when the
group is registered, mark it dirty (set semantics) and run the (undebounced)
update flush immediately. -/
def setResourceStates (sc : ExtSourceControl) (gh : Nat) (rs : List ResourceState) :
    ExtSourceControl × List WireMsg :=
  match lookupA sc.groupStore gh with
  | none => (sc, [])
  | some g =>
    let sc1 := { sc with groupStore := setA sc.groupStore gh { g with resourceStates := rs } }
    if sc1.registered.contains gh then
      let sc2 := { sc1 with
        updatedPending :=
          if sc1.updatedPending.contains gh then sc1.updatedPending
          else sc1.updatedPending ++ [gh] }
      eventuallyUpdateResourceStates sc2
    else (sc1, [])

/-- Lookup of a registered group (`getResourceGroup` reads `_groups`, which
only holds groups that went through the registration flush). -/
def getResourceGroup (sc : ExtSourceControl) (gh : Nat) : Option ExtGroup :=
  if sc.registered.contains gh then lookupA sc.groupStore gh else none

/-! ## The provider-side registry (`ScmExtImpl`, scm.ts lines 646-798) -/

/-- The whole provider-side registry: source controls keyed by handle, the
monotone handle pools, and the recorded selected handle. -/
structure ScmWorld where
  sourceControls : List (Nat × ExtSourceControl)
  scHandlePool : Nat
  groupHandlePool : Nat
  selectedHandle : Option Nat

/-- Embedding of `createSourceControl`: allocate the next source-control
handle and register a fresh control under it. -/
def createSourceControl (w : ScmWorld) (id label : String) : ScmWorld × Nat :=
  let h := w.scHandlePool
  let sc : ExtSourceControl :=
    { handle := h, id := id, label := label, groupStore := [], registered := []
      createdPending := [], updatedPending := [], selected := false
      inputBox := { value := "", placeholder := "", validateInput := none } }
  ({ w with sourceControls := w.sourceControls ++ [(h, sc)], scHandlePool := h + 1 }, h)

/-- A command execution observed on the provider side
(`commands.executeCommand(command.command!, ...(command.arguments || []),
preserveFocus)`): the identifier and arguments come from the stored command,
the mirror only contributes the preserve-focus flag. -/
structure ExecCmd where
  id : Option String
  args : List String
  preserveFocus : Bool
deriving Repr

/-- Embedding of the group-level `$executeResourceCommand` (scm.ts lines
353-361): a handle with no stored command resolves to no execution. -/
def executeResourceCommandGroup (g : ExtGroup) (h : Nat) (preserveFocus : Bool) : List ExecCmd :=
  match lookupA g.resourceStatesCommandsMap h with
  | none => []
  | some c => [{ id := c.command, args := c.arguments.getD [], preserveFocus := preserveFocus }]

/-- Embedding of `ScmExtImpl.$executeResourceCommand` (scm.ts lines 746-762):
each missing level of the handle chain resolves to no execution. -/
def extExecuteResourceCommand (w : ScmWorld) (sch gh rh : Nat) (preserveFocus : Bool) :
    List ExecCmd :=
  match lookupA w.sourceControls sch with
  | none => []
  | some sc =>
    match getResourceGroup sc gh with
    | none => []
    | some g => executeResourceCommandGroup g rh preserveFocus

/-- Embedding of `ScmExtImpl.$validateInput` (scm.ts lines 764-782): a
missing source control or a missing validator resolves to no result. -/
def extValidateInput (w : ScmWorld) (sch : Nat) (value : String) (cursor : Nat) :
    Option (String × Nat) :=
  match lookupA w.sourceControls sch with
  | none => none
  | some sc =>
    match sc.inputBox.validateInput with
    | none => none
    | some f => f value cursor

/-- Embedding of `ScmExtImpl.$onInputBoxValueChange` (scm.ts lines 733-744):
a missing source control leaves everything unchanged. -/
def extOnInputBoxValueChange (w : ScmWorld) (sch : Nat) (value : String) : ScmWorld :=
  match lookupA w.sourceControls sch with
  | none => w
  | some sc =>
    let sc1 := { sc with inputBox := { sc.inputBox with value := value } }
    { w with sourceControls := setA w.sourceControls sch sc1 }

/-- Embedding of `ScmExtImpl.$setSelectedSourceControl` (scm.ts lines
784-797): first the newly selected control (when present) is notified with
`true`, then the previously recorded control (when present) with `false`,
then the recorded handle is replaced.  The returned trace lists the fired
selection notifications in order. -/
def setSelectedSourceControl (w : ScmWorld) (h? : Option Nat) : ScmWorld × List (Nat × Bool) :=
  let step1 : ScmWorld × List (Nat × Bool) :=
    match h? with
    | some h =>
      match lookupA w.sourceControls h with
      | some sc =>
        ({ w with sourceControls := setA w.sourceControls h { sc with selected := true } },
         [(h, true)])
      | none => (w, [])
    | none => (w, [])
  let w1 := step1.1
  let step2 : ScmWorld × List (Nat × Bool) :=
    match w.selectedHandle with
    | some p =>
      match lookupA w1.sourceControls p with
      | some sc =>
        ({ w1 with sourceControls := setA w1.sourceControls p { sc with selected := false } },
         [(p, false)])
      | none => (w1, [])
    | none => (w1, [])
  ({ step2.1 with selectedHandle := h? }, step1.2 ++ step2.2)

/-! ## Mirror-side provider, groups and registry (`ScmMainImpl`) -/

/-- The merge-patchable provider features (`SourceControlProviderFeatures`);
a field present in the patch overwrites the stored field. -/
structure ProviderFeatures where
  hasQuickDiffProvider : Option Bool
  count : Option Nat
  commitTemplate : Option String
  acceptInputCommand : Option Command
  statusBarCommands : Option (List Command)
deriving DecidableEq, Repr

/-- Merge-patch of provider features (`{...this.features, ...features}`). -/
def mergeFeatures (old patch : ProviderFeatures) : ProviderFeatures :=
  { hasQuickDiffProvider := optOr patch.hasQuickDiffProvider old.hasQuickDiffProvider
    count := optOr patch.count old.count
    commitTemplate := optOr patch.commitTemplate old.commitTemplate
    acceptInputCommand := optOr patch.acceptInputCommand old.acceptInputCommand
    statusBarCommands := optOr patch.statusBarCommands old.statusBarCommands }

/-- Merge-patch of group features. -/
def mergeGroupFeatures (old patch : GroupFeatures) : GroupFeatures :=
  { hideWhenEmpty := optOr patch.hideWhenEmpty old.hideWhenEmpty }

/-- One reconstructed resource group on the Mirror Side
(`PluginScmResourceGroup`). -/
structure MirrorGroup where
  handle : Nat
  id : String
  label : String
  features : GroupFeatures
  resources : List MirrorResource
deriving DecidableEq, Repr

/-- One reconstructed provider on the Mirror Side (`PluginScmProvider`):
the ordered group list and the handle-keyed group map. -/
structure MirrorProvider where
  handle : Nat
  contextValue : String
  label : String
  features : ProviderFeatures
  groupsOrder : List Nat
  groupsByHandle : List (Nat × MirrorGroup)
deriving DecidableEq, Repr

/-- Embedding of `PluginScmProvider.$spliceGroupResourceStates` (scm-main.ts
lines 216-259): per addressed group, a missing handle is skipped with a
warning; otherwise the batch is reversed and applied splice by splice to the
group's resource list. -/
def spliceGroupResourceStates (p : MirrorProvider)
    (splices : List (Nat × List (Splice RawResource))) : MirrorProvider :=
  splices.foldl
    (fun pp ghs =>
      match lookupA pp.groupsByHandle ghs.1 with
      | none => pp
      | some grp =>
        let newRes := mirrorApplyBatch pp.handle ghs.1 grp.resources ghs.2
        { pp with groupsByHandle := setA pp.groupsByHandle ghs.1 ({ grp with resources := newRes }) })
    p

/-- Embedding of `PluginScmProvider.$updateGroup`: a missing group handle is
a no-op, otherwise the features are merge-patched. -/
def providerUpdateGroup (p : MirrorProvider) (gh : Nat) (features : GroupFeatures) :
    MirrorProvider :=
  match lookupA p.groupsByHandle gh with
  | none => p
  | some grp =>
    let grp1 := { grp with features := mergeGroupFeatures grp.features features }
    { p with groupsByHandle := setA p.groupsByHandle gh grp1 }

/-- Embedding of `PluginScmProvider.$unregisterGroup`: a missing group handle
is a no-op, otherwise the group leaves the map and the ordered list. -/
def providerUnregisterGroup (p : MirrorProvider) (gh : Nat) : MirrorProvider :=
  match lookupA p.groupsByHandle gh with
  | none => p
  | some _ =>
    { p with groupsByHandle := removeA p.groupsByHandle gh
             groupsOrder := p.groupsOrder.erase gh }

/-- One mirror-side repository (`ScmRepository` as far as this protocol sees
it): the provider plus the input box values. -/
structure MirrorRepo where
  provider : MirrorProvider
  inputValue : String
  inputPlaceholder : String
deriving DecidableEq, Repr

/-- The mirror-side registry state (`ScmMainImpl._repositories`). -/
structure MainState where
  repositories : List (Nat × MirrorRepo)
deriving DecidableEq, Repr

/-- Embedding of `ScmMainImpl.$updateSourceControl`: a missing source-control
handle is a no-op. -/
def mainUpdateSourceControl (s : MainState) (h : Nat) (features : ProviderFeatures) : MainState :=
  match lookupA s.repositories h with
  | none => s
  | some repo =>
    let repo1 := { repo with provider := { repo.provider with features := mergeFeatures repo.provider.features features } }
    { s with repositories := setA s.repositories h repo1 }

/-- Embedding of `ScmMainImpl.$spliceResourceStates` (scm-main.ts lines
411-420): a missing source-control handle is a no-op. -/
def mainSpliceResourceStates (s : MainState) (h : Nat)
    (splices : List (Nat × List (Splice RawResource))) : MainState :=
  match lookupA s.repositories h with
  | none => s
  | some repo =>
    let repo1 := { repo with provider := spliceGroupResourceStates repo.provider splices }
    { s with repositories := setA s.repositories h repo1 }

/-- Embedding of `ScmMainImpl.$updateGroup`: missing handles at either level
are a no-op. -/
def mainUpdateGroup (s : MainState) (h gh : Nat) (features : GroupFeatures) : MainState :=
  match lookupA s.repositories h with
  | none => s
  | some repo =>
    let repo1 := { repo with provider := providerUpdateGroup repo.provider gh features }
    { s with repositories := setA s.repositories h repo1 }

/-- Embedding of `ScmMainImpl.$unregisterGroup`: missing handles at either
level are a no-op. -/
def mainUnregisterGroup (s : MainState) (h gh : Nat) : MainState :=
  match lookupA s.repositories h with
  | none => s
  | some repo =>
    let repo1 := { repo with provider := providerUnregisterGroup repo.provider gh }
    { s with repositories := setA s.repositories h repo1 }

/-- Embedding of `ScmMainImpl.$setInputBoxValue`: a missing source-control
handle is a no-op. -/
def mainSetInputBoxValue (s : MainState) (h : Nat) (value : String) : MainState :=
  match lookupA s.repositories h with
  | none => s
  | some repo =>
    let repo1 := { repo with inputValue := value }
    { s with repositories := setA s.repositories h repo1 }

/-- Embedding of `ScmMainImpl.$registerGroups` (scm-main.ts lines 376-387):
a missing source-control handle is a no-op; otherwise the groups are appended
and the initial splices applied. -/
def mainRegisterGroups (s : MainState) (h : Nat)
    (groups : List (Nat × String × String × GroupFeatures))
    (splices : List (Nat × List (Splice RawResource))) : MainState :=
  match lookupA s.repositories h with
  | none => s
  | some repo =>
    let p := repo.provider
    let p1 := groups.foldl
      (fun pp g =>
        let grp : MirrorGroup := { handle := g.1, id := g.2.2.1, label := g.2.1, features := g.2.2.2, resources := [] }
        { pp with groupsByHandle := setA pp.groupsByHandle g.1 grp
                  groupsOrder := pp.groupsOrder ++ [g.1] })
      p
    let repo1 := { repo with provider := spliceGroupResourceStates p1 splices }
    { s with repositories := setA s.repositories h repo1 }

/-! ## General lemmas about splice application -/

/-- Concatenation preserves the pointwise relation between lists. -/
theorem forall2_append {α β : Type} {R : α → β → Prop} :
    ∀ {l₁ l₃ : List α} {l₂ l₄ : List β},
      List.Forall₂ R l₁ l₂ → List.Forall₂ R l₃ l₄ → List.Forall₂ R (l₁ ++ l₃) (l₂ ++ l₄) := by
  intro l₁ l₃ l₂ l₄ h₁ h₂
  induction h₁ with
  | nil => exact h₂
  | cons h _ ih => exact List.Forall₂.cons h ih

/-- A reflexive relation holds pointwise between a list and itself. -/
theorem forall2_refl {α : Type} {R : α → α → Prop} (h : ∀ a, R a a) (l : List α) :
    List.Forall₂ R l l :=
  List.forall₂_same.mpr fun x _ => h x

/-- A splice addressed at the end of the processed prefix removes exactly the
next `Y` and inserts `ins` there. -/
theorem applySplice_at_end {α : Type} (mdone Y X ins : List α) :
    applySplice ((mdone ++ Y) ++ X) ⟨mdone.length, Y.length, ins⟩ = mdone ++ (ins ++ X) := by
  have h1 : List.take mdone.length ((mdone ++ Y) ++ X) = mdone := by
    rw [List.append_assoc]; exact List.take_left mdone (Y ++ X)
  have h2 : List.drop (mdone.length + Y.length) ((mdone ++ Y) ++ X) = X := by
    rw [← List.length_append]; exact List.drop_left (mdone ++ Y) X
  simp [applySplice, h1, h2]

/-- Merging an adjacent edit into a splice that ends at the processed prefix
boundary is the same as applying the unmerged splice to the list with the
edit already performed at the boundary. -/
theorem applySplice_merge {α : Type} (mdone Y X ins ins0 : List α) (s0 d0 : Nat)
    (h : s0 + d0 = mdone.length) :
    applySplice (mdone ++ (Y ++ X)) ⟨s0, d0 + Y.length, ins0 ++ ins⟩
      = applySplice (mdone ++ (ins ++ X)) ⟨s0, d0, ins0⟩ := by
  have hs0 : s0 ≤ mdone.length := by omega
  have t1 : List.take s0 (mdone ++ (Y ++ X)) = List.take s0 mdone :=
    List.take_append_of_le_length hs0
  have t2 : List.take s0 (mdone ++ (ins ++ X)) = List.take s0 mdone :=
    List.take_append_of_le_length hs0
  have d1 : List.drop (s0 + (d0 + Y.length)) (mdone ++ (Y ++ X)) = X := by
    have he : s0 + (d0 + Y.length) = mdone.length + Y.length := by omega
    rw [he, List.drop_append, List.drop_left]
  have d2 : List.drop (s0 + d0) (mdone ++ (ins ++ X)) = ins ++ X := by
    rw [h, List.drop_left]
  simp only [applySplice, t1, t2, d1, d2, List.append_assoc]

/-- Pushing one new splice whose start is the processed prefix boundary onto
the (reversed) accumulator and applying everything performs the edit at the
boundary. -/
theorem applySplices_cons_new {α : Type} (acc : List (Splice α)) (mdone res Y X ins : List α)
    (hacc : ∀ Z, applySplices (mdone ++ Z) acc = res ++ Z) :
    applySplices ((mdone ++ Y) ++ X) (Splice.mk mdone.length Y.length ins :: acc)
      = (res ++ ins) ++ X := by
  show applySplices (applySplice ((mdone ++ Y) ++ X) ⟨mdone.length, Y.length, ins⟩) acc = _
  rw [applySplice_at_end, hacc (ins ++ X), List.append_assoc]

/-- Merging an edit into the most recent splice of the accumulator and
applying everything performs the edit at the processed prefix boundary. -/
theorem applySplices_cons_merge {α : Type} (latest : Splice α) (rest : List (Splice α))
    (mdone res Y X ins : List α)
    (hacc : ∀ Z, applySplices (mdone ++ Z) (latest :: rest) = res ++ Z)
    (hg : latest.start + latest.deleteCount = mdone.length) :
    applySplices ((mdone ++ Y) ++ X)
      (Splice.mk latest.start (latest.deleteCount + Y.length) (latest.toInsert ++ ins) :: rest)
      = (res ++ ins) ++ X := by
  show applySplices
      (applySplice ((mdone ++ Y) ++ X)
        ⟨latest.start, latest.deleteCount + Y.length, latest.toInsert ++ ins⟩) rest = _
  have hassoc : (mdone ++ Y) ++ X = mdone ++ (Y ++ X) := List.append_assoc mdone Y X
  rw [hassoc,
    applySplice_merge mdone Y X ins latest.toInsert latest.start latest.deleteCount hg]
  exact (hacc (ins ++ X)).trans (List.append_assoc res ins X).symm

/-- The `pushSplice` step of the differ preserves, and extends by the pushed
edit, the semantics of the reversed accumulator. -/
theorem applySplices_push {α : Type} (acc : List (Splice α)) (mdone res Y X ins : List α)
    (hacc : ∀ Z, applySplices (mdone ++ Z) acc = res ++ Z) :
    applySplices ((mdone ++ Y) ++ X) (pushSpliceRev acc mdone.length Y.length ins)
      = (res ++ ins) ++ X := by
  cases Y with
  | nil =>
    cases ins with
    | nil =>
      simp only [pushSpliceRev, List.length_nil, List.append_nil]
      simpa using hacc X
    | cons i insT =>
      cases acc with
      | nil =>
        simp only [pushSpliceRev, List.length_nil]
        exact applySplices_cons_new [] mdone res [] X (i :: insT) hacc
      | cons latest rest =>
        simp only [pushSpliceRev, List.length_nil]
        by_cases hg : latest.start + latest.deleteCount = mdone.length
        · rw [if_pos hg]
          have hm := applySplices_cons_merge latest rest mdone res [] X (i :: insT) hacc hg
          simpa using hm
        · rw [if_neg hg]
          exact applySplices_cons_new (latest :: rest) mdone res [] X (i :: insT) hacc
  | cons y Yt =>
    cases acc with
    | nil =>
      simp only [pushSpliceRev, List.length_cons]
      exact applySplices_cons_new [] mdone res (y :: Yt) X ins hacc
    | cons latest rest =>
      simp only [pushSpliceRev, List.length_cons]
      by_cases hg : latest.start + latest.deleteCount = mdone.length
      · rw [if_pos hg]
        have hm := applySplices_cons_merge latest rest mdone res (y :: Yt) X ins hacc hg
        simpa using hm
      · rw [if_neg hg]
        exact applySplices_cons_new (latest :: rest) mdone res (y :: Yt) X ins hacc

/-- Main correctness lemma of the differ: replaying the splice accumulator of
the differ walk (applied in reverse arrival order, after the mirror's batch
reversal) over any list pointwise related to the remaining `before` suffix
produces a list pointwise related to the remaining `after` suffix.  `Q`
relates a resident element to the snapshot element it stands for; it must be
stable under comparison ties and hold reflexively for inserted elements. -/
theorem sortedDiffGo_mirror_spec {α : Type} (cmp : α → α → Int) (Q : α → α → Prop)
    (hQ : ∀ w b a, Q w b → cmp b a = 0 → Q w a) (hrefl : ∀ a, Q a a) :
    ∀ (fuel : Nat) (bl al : List α), bl.length + al.length ≤ fuel →
    ∀ (acc : List (Splice α)) (mdone mrest res adone : List α),
      List.Forall₂ Q mrest bl →
      (∀ Z, applySplices (mdone ++ Z) acc = res ++ Z) →
      List.Forall₂ Q res adone →
      List.Forall₂ Q
        (applySplices (mdone ++ mrest) (sortedDiffGo cmp fuel mdone.length bl al acc).reverse)
        (adone ++ al) := by
  intro fuel
  induction fuel with
  | zero =>
    intro bl al hlen acc mdone mrest res adone hm hacc hres
    cases bl with
    | nil =>
      have hmrest : mrest = [] := List.forall₂_nil_right_iff.mp hm
      subst hmrest
      simp only [sortedDiffGo, List.reverse_reverse, List.append_nil]
      have hp := applySplices_push acc mdone res [] [] al hacc
      simp only [List.length_nil, List.append_nil] at hp
      rw [hp]
      exact forall2_append hres (forall2_refl hrefl al)
    | cons b blt =>
      cases al with
      | nil =>
        simp only [sortedDiffGo, List.reverse_reverse, List.append_nil]
        have hlen2 : (b :: blt).length = mrest.length := (List.Forall₂.length_eq hm).symm
        rw [hlen2]
        have hp := applySplices_push acc mdone res mrest [] [] hacc
        simp only [List.append_nil] at hp
        rw [hp]
        exact hres
      | cons a alt =>
        exfalso
        simp only [List.length_cons] at hlen
        omega
  | succ fuel ih =>
    intro bl al hlen acc mdone mrest res adone hm hacc hres
    cases bl with
    | nil =>
      have hmrest : mrest = [] := List.forall₂_nil_right_iff.mp hm
      subst hmrest
      simp only [sortedDiffGo, List.reverse_reverse, List.append_nil]
      have hp := applySplices_push acc mdone res [] [] al hacc
      simp only [List.length_nil, List.append_nil] at hp
      rw [hp]
      exact forall2_append hres (forall2_refl hrefl al)
    | cons b blt =>
      cases al with
      | nil =>
        simp only [sortedDiffGo, List.reverse_reverse, List.append_nil]
        have hlen2 : (b :: blt).length = mrest.length := (List.Forall₂.length_eq hm).symm
        rw [hlen2]
        have hp := applySplices_push acc mdone res mrest [] [] hacc
        simp only [List.append_nil] at hp
        rw [hp]
        exact hres
      | cons a alt =>
        cases hm with
        | cons hQwb hmt =>
          rename_i w mrestt
          simp only [sortedDiffGo]
          by_cases h0 : cmp b a = 0
          · rw [if_pos h0]
            have hacc2 : ∀ Z, applySplices ((mdone ++ [w]) ++ Z) acc = (res ++ [w]) ++ Z := by
              intro Z
              rw [List.append_assoc, List.singleton_append, hacc (w :: Z),
                List.append_assoc, List.singleton_append]
            have hres2 : List.Forall₂ Q (res ++ [w]) (adone ++ [a]) :=
              forall2_append hres (List.Forall₂.cons (hQ w b a hQwb h0) List.Forall₂.nil)
            have hlen2 : blt.length + alt.length ≤ fuel := by
              simp only [List.length_cons] at hlen; omega
            have hrec := ih blt alt hlen2 acc (mdone ++ [w]) mrestt (res ++ [w]) (adone ++ [a])
              hmt hacc2 hres2
            simp only [List.length_append, List.length_cons, List.length_nil,
              List.append_assoc, List.singleton_append] at hrec
            simpa using hrec
          · rw [if_neg h0]
            by_cases hneg : cmp b a < 0
            · rw [if_pos hneg]
              have hacc2 : ∀ Z, applySplices ((mdone ++ [w]) ++ Z)
                  (pushSpliceRev acc mdone.length 1 []) = res ++ Z := by
                intro Z
                have hp := applySplices_push acc mdone res [w] Z [] hacc
                simpa using hp
              have hlen2 : blt.length + (a :: alt).length ≤ fuel := by
                simp only [List.length_cons] at hlen ⊢; omega
              have hrec := ih blt (a :: alt) hlen2 (pushSpliceRev acc mdone.length 1 [])
                (mdone ++ [w]) mrestt res adone hmt hacc2 hres
              simp only [List.length_append, List.length_cons, List.length_nil,
                List.append_assoc, List.singleton_append] at hrec
              simpa using hrec
            · rw [if_neg hneg]
              have hacc2 : ∀ Z, applySplices (mdone ++ Z)
                  (pushSpliceRev acc mdone.length 0 [a]) = (res ++ [a]) ++ Z := by
                intro Z
                have hp := applySplices_push acc mdone res [] Z [a] hacc
                simpa using hp
              have hres2 : List.Forall₂ Q (res ++ [a]) (adone ++ [a]) :=
                forall2_append hres (List.Forall₂.cons (hrefl a) List.Forall₂.nil)
              have hm2 : List.Forall₂ Q (w :: mrestt) (b :: blt) :=
                List.Forall₂.cons hQwb hmt
              have hlen2 : (b :: blt).length + alt.length ≤ fuel := by
                simp only [List.length_cons] at hlen ⊢; omega
              have hrec := ih (b :: blt) alt hlen2 (pushSpliceRev acc mdone.length 0 [a])
                mdone (w :: mrestt) (res ++ [a]) (adone ++ [a]) hm2 hacc2 hres2
              simpa [List.append_assoc, List.singleton_append] using hrec

/-- Wrapper of the main lemma: applying a computed sorted diff in reverse
order (the mirror's replay) to any list pointwise related to the previous
snapshot yields a list pointwise related to the new snapshot. -/
theorem applySplices_reverse_sortedDiff {α : Type} (cmp : α → α → Int) (Q : α → α → Prop)
    (hQ : ∀ w b a, Q w b → cmp b a = 0 → Q w a) (hrefl : ∀ a, Q a a)
    (m before after : List α) (hm : List.Forall₂ Q m before) :
    List.Forall₂ Q (applySplices m (sortedDiff before after cmp).reverse) after := by
  have hmain := sortedDiffGo_mirror_spec cmp Q hQ hrefl (before.length + after.length)
    before after (Nat.le_refl _) [] [] m [] [] hm
    (fun Z => by simp [applySplices]) List.Forall₂.nil
  simpa [sortedDiff] using hmain

/-! ## Claim C1: batch application semantics of the mirror -/

/-- Two resource states tie under the provider's total order. -/
def resourceStateTie (x y : ResourceState) : Prop := compareResourceStates x y = 0

/-- A chain of ties accumulated across successive snapshot batches: the
resident mirror element encodes a state linked to the target state by
comparison ties. -/
def resourceStateChain : ResourceState → ResourceState → Prop :=
  Relation.ReflTransGen resourceStateTie

/-- C1 (amended): for every declared lists A, B, C, the provider computes the
batch A→B as `sortedDiff` of the two sorted snapshots (with splice indices
relative to the pre-batch snapshot) and likewise for B→C; applying each batch
in reverse order — exactly what the Mirror Side does by reversing the batch
before replaying it — to a mirror holding sorted A yields a list that matches
sorted C position by position (up to ties of the total order carried over
from earlier batches).  The spec's left-to-right progressive-index reading of
the same splices does not hold; see the counterexample. -/
theorem c1_reversed_batches_yield_target (A B C : List ResourceState) :
    List.Forall₂ resourceStateChain
      (applySplices
        (applySplices (jsSortStable compareResourceStates A)
          ((sortedDiff (jsSortStable compareResourceStates A)
            (jsSortStable compareResourceStates B) compareResourceStates).reverse))
        ((sortedDiff (jsSortStable compareResourceStates B)
          (jsSortStable compareResourceStates C) compareResourceStates).reverse))
      (jsSortStable compareResourceStates C) := by
  have hrefl : ∀ a : ResourceState, resourceStateChain a a :=
    fun a => Relation.ReflTransGen.refl
  have hQ : ∀ w b a : ResourceState,
      resourceStateChain w b → compareResourceStates b a = 0 → resourceStateChain w a :=
    fun w b a h hz => h.tail hz
  have h1 := applySplices_reverse_sortedDiff compareResourceStates resourceStateChain hQ hrefl
    (jsSortStable compareResourceStates A) (jsSortStable compareResourceStates A)
    (jsSortStable compareResourceStates B) (forall2_refl hrefl _)
  exact applySplices_reverse_sortedDiff compareResourceStates resourceStateChain hQ hrefl
    _ (jsSortStable compareResourceStates B) (jsSortStable compareResourceStates C) h1

/-- A bare resource state at a path, as declared by a plugin. -/
def plainState (p : String) : ResourceState :=
  { resourceUri := Uri.file p, command := none, decorations := none, contextValue := none }

/-- Concrete declared list A of the C1 scenario. -/
def c1A : List ResourceState := [plainState "/b", plainState "/c", plainState "/d", plainState "/e"]

/-- Concrete declared list B of the C1 scenario. -/
def c1B : List ResourceState := [plainState "/a", plainState "/b", plainState "/c", plainState "/d"]

/-- Concrete declared list C of the C1 scenario (B redeclared unchanged). -/
def c1C : List ResourceState := c1B

/-- The group freshly registered with declared list A. -/
def c1G0 : ExtGroup := { mkExtGroup 0 "index" "Index" with resourceStates := c1A }

/-- First snapshot (registration): group state and wire splices for A. -/
def c1Snap1 : ExtGroup × List (Splice RawResource) := takeResourceStateSnapshot c1G0

/-- The mirror resource list holding A, built from the registration splices. -/
def c1M1 : List MirrorResource := mirrorApplyBatch 7 0 [] c1Snap1.2

/-- Second snapshot: the declared list mutates to B. -/
def c1Snap2 : ExtGroup × List (Splice RawResource) :=
  takeResourceStateSnapshot ({ c1Snap1.1 with resourceStates := c1B })

/-- Third snapshot: the declared list mutates to C. -/
def c1Snap3 : ExtGroup × List (Splice RawResource) :=
  takeResourceStateSnapshot ({ c1Snap2.1 with resourceStates := c1C })

/-- C1, as stated, is false: on the concrete scenario A→B→C the Mirror
Side's final resource list (reversed batch replay) differs from the result of
left-to-right sequential application of the same computed splices with start
indices read against progressively mutated state; the reversed replay yields
exactly sorted C while the left-to-right reading does not.  The A→B batch is
`[{start 0, delete 0, insert /a}, {start 3, delete 1}]` with both indices
relative to the pre-batch list. -/
theorem c1_ltr_semantics_counterexample :
    mirrorApplyBatch 7 0 (mirrorApplyBatch 7 0 c1M1 c1Snap2.2) c1Snap3.2
      ≠ mirrorApplyBatchLTR 7 0 (mirrorApplyBatchLTR 7 0 c1M1 c1Snap2.2) c1Snap3.2
    ∧ (mirrorApplyBatch 7 0 (mirrorApplyBatch 7 0 c1M1 c1Snap2.2) c1Snap3.2).map
        (fun r => r.sourceUri.fsPath)
        = (jsSortStable compareResourceStates c1C).map (fun r => r.resourceUri.fsPath)
    ∧ (mirrorApplyBatchLTR 7 0 (mirrorApplyBatchLTR 7 0 c1M1 c1Snap2.2) c1Snap3.2).map
        (fun r => r.sourceUri.fsPath)
        ≠ (jsSortStable compareResourceStates c1C).map (fun r => r.resourceUri.fsPath) := by
  refine ⟨by decide, by decide, by decide⟩

/-! ## Association list lemmas -/

/-- Lookup after setting the same key yields the new value. -/
theorem lookupA_setA_self {β : Type} :
    ∀ (l : List (Nat × β)) (k : Nat) (v : β), lookupA (setA l k v) k = some v := by
  intro l k v
  induction l with
  | nil => simp [setA, lookupA]
  | cons p rest ih =>
    cases p with
    | mk k1 v1 =>
      by_cases h : k1 = k
      · simp [setA, h, lookupA]
      · simp [setA, h, lookupA, ih]

/-- Lookup of a different key is unaffected by a set. -/
theorem lookupA_setA_ne {β : Type} :
    ∀ (l : List (Nat × β)) (k k2 : Nat) (v : β), k ≠ k2 →
      lookupA (setA l k v) k2 = lookupA l k2 := by
  intro l k k2 v hne
  induction l with
  | nil => simp [setA, lookupA, hne]
  | cons p rest ih =>
    cases p with
    | mk k1 v1 =>
      by_cases h : k1 = k
      · subst h
        simp [setA, lookupA, hne]
      · simp [setA, h, lookupA, ih]

/-- Setting a key to the value it already holds leaves the list unchanged. -/
theorem setA_self {β : Type} :
    ∀ (l : List (Nat × β)) (k : Nat) (v : β), lookupA l k = some v → setA l k v = l := by
  intro l k v
  induction l with
  | nil => intro h; simp [lookupA] at h
  | cons p rest ih =>
    cases p with
    | mk k1 v1 =>
      intro h
      by_cases hk : k1 = k
      · subst hk
        simp [lookupA] at h
        simp [setA, h]
      · simp [lookupA, hk] at h
        simp [setA, hk, ih h]

/-! ## Claim C4: orientation of the decoration tie-breaks -/

/-- The attached commands of the two states tie in `compareResourceStates`:
both present and comparing equal, or both absent. -/
def commandTie (a b : ResourceState) : Prop :=
  (a.command = none ∧ b.command = none) ∨
  (∃ ca cb, a.command = some ca ∧ b.command = some cb ∧ compareCommands ca cb = 0)

/-- C4 (amended): when the source-location paths compare equal and the
attached commands tie, `compareResourceStates` is decided by the decoration
comparison, whose keys are, in order: strike-through — with a strike-through
state ordering AFTER one without it (`1`, not before as the claim states) —
then faded (faded likewise AFTER non-faded), then lexicographic tooltip
comparison, then the icon-path comparisons of the default and themed icon
sets. -/
theorem c4_decoration_order_amended (a b : ResourceState) (da db : Decorations)
    (hda : a.decorations = some da) (hdb : b.decorations = some db)
    (hp : comparePaths a.resourceUri.fsPath b.resourceUri.fsPath true = 0)
    (hc : commandTie a b) :
    compareResourceStates a b = compareResourceStatesDecorations da db
    ∧ (da.strikeThrough ≠ db.strikeThrough →
        compareResourceStatesDecorations da db
          = (if da.strikeThrough = some true then 1 else -1))
    ∧ (da.strikeThrough = db.strikeThrough → da.faded ≠ db.faded →
        compareResourceStatesDecorations da db = (if da.faded = some true then 1 else -1))
    ∧ (da.strikeThrough = db.strikeThrough → da.faded = db.faded → da.tooltip ≠ db.tooltip →
        compareResourceStatesDecorations da db = strCmp (da.tooltip.getD "") (db.tooltip.getD ""))
    ∧ (da.strikeThrough = db.strikeThrough → da.faded = db.faded → da.tooltip = db.tooltip →
        compareResourceStatesDecorations da db
          = (if compareResourceThemableDecorations da.iconPath db.iconPath ≠ 0 then
              compareResourceThemableDecorations da.iconPath db.iconPath
            else compareDecorationsLightDark da db)) := by
  refine ⟨?_, ?_, ?_, ?_, ?_⟩
  · simp only [compareResourceStates, hp, ne_eq, not_true_eq_false, if_false,
      ite_false]
    rcases hc with ⟨ha, hb⟩ | ⟨ca, cb, ha, hb, hcc⟩
    · simp [ha, hb, compareStatesDecorations, hda, hdb]
    · simp [ha, hb, hcc, compareStatesDecorations, hda, hdb]
  · intro hne
    simp [compareResourceStatesDecorations, hne]
  · intro hst hne
    simp [compareResourceStatesDecorations, hst, hne]
  · intro hst hf hne
    simp [compareResourceStatesDecorations, hst, hf, hne]
  · intro hst hf ht
    simp [compareResourceStatesDecorations, hst, hf, ht]

/-- Decorations with only a strike-through flag set. -/
def c4DecA : Decorations :=
  { iconPath := none, strikeThrough := some true, faded := none, tooltip := none
    light := none, dark := none }

/-- Decorations without a strike-through flag. -/
def c4DecB : Decorations :=
  { iconPath := none, strikeThrough := none, faded := none, tooltip := none
    light := none, dark := none }

/-- A state at `/x` carrying the strike-through decoration. -/
def c4A : ResourceState :=
  { resourceUri := Uri.file "/x", command := none, decorations := some c4DecA
    contextValue := none }

/-- A state at `/x` without the strike-through decoration. -/
def c4B : ResourceState :=
  { resourceUri := Uri.file "/x", command := none, decorations := some c4DecB
    contextValue := none }

/-- C4, as stated, is false: for two states with equal paths, equal (absent)
commands, one with the strike-through decoration and one without, the
comparator returns `1` — the strike-through state orders AFTER the state
without it, not before. -/
theorem c4_strikethrough_before_counterexample :
    comparePaths c4A.resourceUri.fsPath c4B.resourceUri.fsPath true = 0
    ∧ c4A.command = none ∧ c4B.command = none
    ∧ c4DecA.strikeThrough = some true ∧ c4DecB.strikeThrough = none
    ∧ compareResourceStates c4A c4B = 1
    ∧ ¬ compareResourceStates c4A c4B < 0 := by
  refine ⟨by decide, rfl, rfl, rfl, rfl, by decide, by decide⟩

/-- Witness of the amended C4 theorem at the concrete pair of states. -/
theorem c4_decoration_order_amended_witness :
    compareResourceStates c4A c4B = compareResourceStatesDecorations c4DecA c4DecB
    ∧ compareResourceStatesDecorations c4DecA c4DecB = 1 := by
  have h := c4_decoration_order_amended c4A c4B c4DecA c4DecB rfl rfl (by decide)
    (Or.inl ⟨rfl, rfl⟩)
  refine ⟨h.1, ?_⟩
  have h2 := h.2.1 (by decide)
  rw [h2]
  decide

/-! ## Claims C5 and C10: selection change notifications -/

/-- C5: when Y (handle `p`) is the recorded selected control and the
selection changes to a different registered X (handle `h`), exactly one
notification with value `true` fires (on X) and exactly one with value
`false` (on Y), the `true` one first; afterwards X is the recorded selected
handle, X's flag is true and Y's flag is false. -/
theorem c5_selection_exclusivity (w : ScmWorld) (h p : Nat) (sch scp : ExtSourceControl)
    (hne : h ≠ p)
    (hsel : w.selectedHandle = some p)
    (hsch : lookupA w.sourceControls h = some sch)
    (hscp : lookupA w.sourceControls p = some scp) :
    (setSelectedSourceControl w (some h)).2 = [(h, true), (p, false)]
    ∧ (setSelectedSourceControl w (some h)).1.selectedHandle = some h
    ∧ ((lookupA (setSelectedSourceControl w (some h)).1.sourceControls h).map
        ExtSourceControl.selected) = some true
    ∧ ((lookupA (setSelectedSourceControl w (some h)).1.sourceControls p).map
        ExtSourceControl.selected) = some false := by
  have hlk2 : lookupA (setA w.sourceControls h ({ sch with selected := true })) p
      = some scp := by
    rw [lookupA_setA_ne _ _ _ _ hne, hscp]
  simp only [setSelectedSourceControl, hsch, hsel, hlk2]
  refine ⟨rfl, trivial, ?_, ?_⟩
  · rw [lookupA_setA_ne _ _ _ _ (Ne.symm hne), lookupA_setA_self]
    rfl
  · rw [lookupA_setA_self]
    rfl

/-- A source control with no groups and an empty input box. -/
def bareSourceControl (h : Nat) (id label : String) : ExtSourceControl :=
  { handle := h, id := id, label := label, groupStore := [], registered := []
    createdPending := [], updatedPending := [], selected := false
    inputBox := { value := "", placeholder := "", validateInput := none } }

/-- A world with two registered source controls, the second selected. -/
def c5World : ScmWorld :=
  { sourceControls :=
      [(0, bareSourceControl 0 "git" "Git"),
       (1, { bareSourceControl 1 "hg" "Hg" with selected := true })]
    scHandlePool := 2, groupHandlePool := 0, selectedHandle := some 1 }

/-- Witness of C5 at the concrete two-control world. -/
theorem c5_selection_exclusivity_witness :
    c5World.selectedHandle = some 1
    ∧ (setSelectedSourceControl c5World (some 0)).2 = [(0, true), (1, false)]
    ∧ (setSelectedSourceControl c5World (some 0)).1.selectedHandle = some 0 :=
  ⟨rfl,
   (c5_selection_exclusivity c5World 0 1 (bareSourceControl 0 "git" "Git")
     ({ bareSourceControl 1 "hg" "Hg" with selected := true })
     (by decide) rfl rfl rfl).1,
   (c5_selection_exclusivity c5World 0 1 (bareSourceControl 0 "git" "Git")
     ({ bareSourceControl 1 "hg" "Hg" with selected := true })
     (by decide) rfl rfl rfl).2.1⟩

/-- C10: re-selecting the handle that is already recorded as selected first
notifies that control with `true`, then — because the recorded handle equals
it — with `false`; afterwards the control's selected flag is `false` while
its handle is still the recorded selected handle. -/
theorem c10_reselect_recorded_handle (w : ScmWorld) (h : Nat) (sc : ExtSourceControl)
    (hsel : w.selectedHandle = some h)
    (hsc : lookupA w.sourceControls h = some sc) :
    (setSelectedSourceControl w (some h)).2 = [(h, true), (h, false)]
    ∧ (setSelectedSourceControl w (some h)).1.selectedHandle = some h
    ∧ ((lookupA (setSelectedSourceControl w (some h)).1.sourceControls h).map
        ExtSourceControl.selected) = some false := by
  have hlk2 : lookupA (setA w.sourceControls h ({ sc with selected := true })) h
      = some ({ sc with selected := true }) := lookupA_setA_self _ _ _
  simp only [setSelectedSourceControl, hsc, hsel, hlk2]
  refine ⟨rfl, trivial, ?_⟩
  rw [lookupA_setA_self]
  rfl

/-- A world with one registered source control which is selected. -/
def c10World : ScmWorld :=
  { sourceControls := [(0, { bareSourceControl 0 "git" "Git" with selected := true })]
    scHandlePool := 1, groupHandlePool := 0, selectedHandle := some 0 }

/-- Witness of C10 at the concrete one-control world. -/
theorem c10_reselect_recorded_handle_witness :
    c10World.selectedHandle = some 0
    ∧ (setSelectedSourceControl c10World (some 0)).2 = [(0, true), (0, false)]
    ∧ ((lookupA (setSelectedSourceControl c10World (some 0)).1.sourceControls 0).map
        ExtSourceControl.selected) = some false :=
  ⟨rfl,
   (c10_reselect_recorded_handle c10World 0
     ({ bareSourceControl 0 "git" "Git" with selected := true }) rfl rfl).1,
   (c10_reselect_recorded_handle c10World 0
     ({ bareSourceControl 0 "git" "Git" with selected := true }) rfl rfl).2.2⟩

/-! ## Claim C9: safe-command routing -/

/-- C9: for a resource state carrying a command, the snapshot encoder routes
a trusted built-in identifier (`theia.open`/`theia.diff`) through
`toSafeCommand` and forwards the resulting plain descriptor in the wire
tuple, registering a disposable scope for the handle; any other command never
crosses the wire — it is stored in the handle-keyed command map, and the
Mirror Side can only run it through `$executeResourceCommand` with the
resource's handle, which replays the stored identifier and the stored
arguments (the mirror contributes only the preserve-focus flag). -/
theorem c9_safe_command_routing (g : ExtGroup) (r : ResourceState) (c : Command)
    (hr : r.command = some c) :
    ((c.command = some "theia.open" ∨ c.command = some "theia.diff") →
      (snapshotInsertOne g r).2.1.command = some (toSafeCommand c)
      ∧ (snapshotInsertOne g r).1.resourceStatesCommandsMap = g.resourceStatesCommandsMap
      ∧ (snapshotInsertOne g r).1.resourceStatesDisposablesMap
          = g.resourceHandlePool :: g.resourceStatesDisposablesMap)
    ∧ (¬ (c.command = some "theia.open" ∨ c.command = some "theia.diff") →
      (snapshotInsertOne g r).2.1.command = none
      ∧ (snapshotInsertOne g r).1.resourceStatesCommandsMap
          = (g.resourceHandlePool, c) :: g.resourceStatesCommandsMap
      ∧ (snapshotInsertOne g r).1.resourceStatesDisposablesMap
          = g.resourceStatesDisposablesMap)
    ∧ (∀ (h : Nat) (pf : Bool) (c2 : Command),
        lookupA g.resourceStatesCommandsMap h = some c2 →
        executeResourceCommandGroup g h pf
          = [{ id := c2.command, args := c2.arguments.getD [], preserveFocus := pf }]) := by
  refine ⟨?_, ?_, ?_⟩
  · intro htr
    simp [snapshotInsertOne, encodeRawResource, hr, htr]
  · intro htr
    simp [snapshotInsertOne, encodeRawResource, hr, htr]
  · intro h pf c2 hlk
    simp [executeResourceCommandGroup, hlk]

/-- A command with an untrusted identifier and fixed arguments. -/
def c9Cmd : Command :=
  { command := some "git.stage", title := some "Stage", tooltip := none
    arguments := some ["u1"] }

/-- A resource state carrying the untrusted command. -/
def c9State : ResourceState :=
  { resourceUri := Uri.file "/y", command := some c9Cmd, decorations := none
    contextValue := none }

/-- A trusted-command resource state. -/
def c9TrustedState : ResourceState :=
  { resourceUri := Uri.file "/y"
    command := some { command := some "theia.open", title := none, tooltip := none
                      arguments := some ["u1"] }
    decorations := none, contextValue := none }

/-- Witness of C9 on concrete trusted and untrusted commands. -/
theorem c9_safe_command_routing_witness :
    (snapshotInsertOne (mkExtGroup 0 "g" "G") c9State).2.1.command = none
    ∧ (snapshotInsertOne (mkExtGroup 0 "g" "G") c9State).1.resourceStatesCommandsMap
        = [(0, c9Cmd)]
    ∧ (snapshotInsertOne (mkExtGroup 0 "g" "G") c9TrustedState).2.1.command
        = some (toSafeCommand { command := some "theia.open", title := none, tooltip := none
                                arguments := some ["u1"] })
    ∧ executeResourceCommandGroup
        (snapshotInsertOne (mkExtGroup 0 "g" "G") c9State).1 0 true
        = [{ id := some "git.stage", args := ["u1"], preserveFocus := true }] := by
  have hu := c9_safe_command_routing (mkExtGroup 0 "g" "G") c9State c9Cmd rfl
  have ht := c9_safe_command_routing (mkExtGroup 0 "g" "G") c9TrustedState
    { command := some "theia.open", title := none, tooltip := none, arguments := some ["u1"] }
    rfl
  have hx := c9_safe_command_routing ((snapshotInsertOne (mkExtGroup 0 "g" "G") c9State).1)
    c9State c9Cmd rfl
  refine ⟨(hu.2.1 (by decide)).1, ?_, (ht.1 (Or.inl rfl)).1, ?_⟩
  · rw [(hu.2.1 (by decide)).2.1]
    rfl
  · exact hx.2.2 0 true c9Cmd (by decide)

/-! ## Claim C6: handle-keyed operations on missing handles -/

/-- C6: every handle-keyed wire operation addressed at a handle that is not
currently registered resolves successfully with an empty result and leaves
the receiving side's state unchanged — on the Mirror Side
(`$updateSourceControl`, `$spliceResourceStates`, `$updateGroup`,
`$unregisterGroup`, `$setInputBoxValue`, each for a missing source control,
and the group-addressed ones also for a missing group of a present source
control) and on the Provider Side (`$executeResourceCommand`,
`$validateInput`, `$onInputBoxValueChange`, with `$executeResourceCommand`
also for a missing group or a missing resource handle). -/
theorem c6_missing_handle_noop (ms : MainState) (w : ScmWorld) (sch gh rh : Nat)
    (pf : Bool) (f : ProviderFeatures) (gf : GroupFeatures)
    (sps : List (Nat × List (Splice RawResource))) (sps2 : List (Splice RawResource))
    (v : String) (cur : Nat) :
    (lookupA ms.repositories sch = none →
      mainUpdateSourceControl ms sch f = ms
      ∧ mainSpliceResourceStates ms sch sps = ms
      ∧ mainUpdateGroup ms sch gh gf = ms
      ∧ mainUnregisterGroup ms sch gh = ms
      ∧ mainSetInputBoxValue ms sch v = ms)
    ∧ (∀ repo, lookupA ms.repositories sch = some repo →
        lookupA repo.provider.groupsByHandle gh = none →
        mainSpliceResourceStates ms sch [(gh, sps2)] = ms
        ∧ mainUpdateGroup ms sch gh gf = ms
        ∧ mainUnregisterGroup ms sch gh = ms)
    ∧ (lookupA w.sourceControls sch = none →
        extExecuteResourceCommand w sch gh rh pf = []
        ∧ extValidateInput w sch v cur = none
        ∧ extOnInputBoxValueChange w sch v = w)
    ∧ (∀ sc, lookupA w.sourceControls sch = some sc →
        getResourceGroup sc gh = none →
        extExecuteResourceCommand w sch gh rh pf = [])
    ∧ (∀ sc g, lookupA w.sourceControls sch = some sc →
        getResourceGroup sc gh = some g →
        lookupA g.resourceStatesCommandsMap rh = none →
        extExecuteResourceCommand w sch gh rh pf = []) := by
  refine ⟨?_, ?_, ?_, ?_, ?_⟩
  · intro hr
    refine ⟨?_, ?_, ?_, ?_, ?_⟩
    · simp [mainUpdateSourceControl, hr]
    · simp [mainSpliceResourceStates, hr]
    · simp [mainUpdateGroup, hr]
    · simp [mainUnregisterGroup, hr]
    · simp [mainSetInputBoxValue, hr]
  · intro repo hr hg
    refine ⟨?_, ?_, ?_⟩
    · simp only [mainSpliceResourceStates, hr, spliceGroupResourceStates,
        List.foldl_cons, List.foldl_nil, hg]
      rw [setA_self _ _ _ hr]
    · simp only [mainUpdateGroup, hr, providerUpdateGroup, hg]
      rw [setA_self _ _ _ hr]
    · simp only [mainUnregisterGroup, hr, providerUnregisterGroup, hg]
      rw [setA_self _ _ _ hr]
  · intro hr
    refine ⟨?_, ?_, ?_⟩
    · simp [extExecuteResourceCommand, hr]
    · simp [extValidateInput, hr]
    · simp [extOnInputBoxValueChange, hr]
  · intro sc hsc hg
    simp [extExecuteResourceCommand, hsc, hg]
  · intro sc g hsc hg hcmd
    simp [extExecuteResourceCommand, hsc, hg, executeResourceCommandGroup, hcmd]

/-- A mirror repository with one empty group registered at handle 0. -/
def c6Repo : MirrorRepo :=
  { provider :=
      { handle := 0, contextValue := "git", label := "Git"
        features := { hasQuickDiffProvider := none, count := none, commitTemplate := none
                      acceptInputCommand := none, statusBarCommands := none }
        groupsOrder := [0]
        groupsByHandle := [(0, { handle := 0, id := "index", label := "Index"
                                 features := ⟨none⟩, resources := [] })] }
    inputValue := "", inputPlaceholder := "" }

/-- A mirror registry holding the one repository under handle 0. -/
def c6Main : MainState := { repositories := [(0, c6Repo)] }

/-- A provider world with one source control owning one registered group. -/
def c6World : ScmWorld :=
  { sourceControls :=
      [(0, { bareSourceControl 0 "git" "Git" with
               groupStore := [(0, mkExtGroup 0 "index" "Index")]
               registered := [0] })]
    scHandlePool := 1, groupHandlePool := 1, selectedHandle := none }

/-- Witness of C6: a missing source control (handle 3), a missing group
(handle 5) of a present source control, and a missing resource handle all
resolve to empty results and unchanged state. -/
theorem c6_missing_handle_noop_witness :
    lookupA c6Main.repositories 3 = none
    ∧ mainSpliceResourceStates c6Main 3 [] = c6Main
    ∧ mainUpdateGroup c6Main 0 5 ⟨none⟩ = c6Main
    ∧ extExecuteResourceCommand c6World 3 0 0 false = []
    ∧ extExecuteResourceCommand c6World 0 5 0 false = []
    ∧ extExecuteResourceCommand c6World 0 0 9 false = []
    ∧ extValidateInput c6World 3 "msg" 0 = none
    ∧ extOnInputBoxValueChange c6World 3 "msg" = c6World := by
  have h1 := c6_missing_handle_noop c6Main c6World 3 0 0 false
    { hasQuickDiffProvider := none, count := none, commitTemplate := none
      acceptInputCommand := none, statusBarCommands := none }
    ⟨none⟩ [] [] "msg" 0
  have h2 := c6_missing_handle_noop c6Main c6World 0 5 0 false
    { hasQuickDiffProvider := none, count := none, commitTemplate := none
      acceptInputCommand := none, statusBarCommands := none }
    ⟨none⟩ [] [] "msg" 0
  have h3 := c6_missing_handle_noop c6Main c6World 0 0 9 false
    { hasQuickDiffProvider := none, count := none, commitTemplate := none
      acceptInputCommand := none, statusBarCommands := none }
    ⟨none⟩ [] [] "msg" 0
  refine ⟨rfl, (h1.1 rfl).2.1, (h2.2.1 c6Repo rfl rfl).2.1, (h1.2.2.1 rfl).1,
    h2.2.2.2.1 _ rfl rfl, h3.2.2.2.2 _ (mkExtGroup 0 "index" "Index") rfl rfl rfl,
    (h1.2.2.1 rfl).2.1, (h1.2.2.1 rfl).2.2⟩

/-! ## Claims C2 and C3: the batch flushes -/

/-- Appending a binding for a key absent from the list makes it found. -/
theorem lookupA_append_fresh {β : Type} :
    ∀ (l : List (Nat × β)) (k : Nat) (v : β), lookupA l k = none →
      lookupA (l ++ [(k, v)]) k = some v := by
  intro l k v
  induction l with
  | nil => intro h; simp [lookupA]
  | cons p rest ih =>
    cases p with
    | mk k1 v1 =>
      intro h
      by_cases hk : k1 = k
      · subst hk; simp [lookupA] at h
      · simp [lookupA, hk] at h ⊢
        exact ih h

/-- The first snapshot of a freshly created (empty) group produces no
splices and leaves the group state unchanged. -/
theorem takeSnapshot_fresh (gh : Nat) (id label : String) :
    takeResourceStateSnapshot (mkExtGroup gh id label) = (mkExtGroup gh id label, []) := rfl

/-- Processing the dirty set emits no splice when every dirty group's
computed snapshot diff is empty. -/
theorem updateFold_no_splices :
    ∀ (pending : List Nat) (sc : ExtSourceControl)
      (acc : List (Nat × List (Splice RawResource))),
      pending.Nodup →
      (∀ gh g, gh ∈ pending → lookupA sc.groupStore gh = some g →
        (takeResourceStateSnapshot g).2 = []) →
      (pending.foldl updateGroupsStep (sc, acc)).2 = acc := by
  intro pending
  induction pending with
  | nil => intro sc acc _ _; rfl
  | cons gh rest ih =>
    intro sc acc hnd hsnap
    simp only [List.foldl_cons]
    cases hlk : lookupA sc.groupStore gh with
    | none =>
      simp only [updateGroupsStep, hlk]
      exact ih sc acc hnd.of_cons
        (fun gh2 g hm hl => hsnap gh2 g (List.mem_cons_of_mem _ hm) hl)
    | some g =>
      have hempty : (takeResourceStateSnapshot g).2 = [] :=
        hsnap gh g (List.mem_cons_self _ _) hlk
      simp only [updateGroupsStep, hlk, hempty, List.length_nil, if_pos]
      refine ih _ acc hnd.of_cons ?_
      intro gh2 g2 hm hl2
      have hne : gh ≠ gh2 := by
        intro he; subst he
        exact (List.nodup_cons.mp hnd).1 hm
      rw [lookupA_setA_ne _ _ _ _ hne] at hl2
      exact hsnap gh2 g2 (List.mem_cons_of_mem _ hm) hl2

/-- Flushing a single dirty group sends one message exactly when the
group's computed snapshot diff is non-empty. -/
theorem eventuallyUpdate_single (sc : ExtSourceControl) (gh : Nat) (g : ExtGroup)
    (hpend : sc.updatedPending = [gh])
    (hlk : lookupA sc.groupStore gh = some g) :
    (eventuallyUpdateResourceStates sc).2
      = if (takeResourceStateSnapshot g).2.length = 0 then []
        else [WireMsg.spliceResourceStates sc.handle [(gh, (takeResourceStateSnapshot g).2)]] := by
  cases hx : (takeResourceStateSnapshot g).2 with
  | nil =>
    simp only [eventuallyUpdateResourceStates, hpend, List.foldl_cons, List.foldl_nil,
      updateGroupsStep, hlk, hx]
    simp
  | cons s0 srest =>
    simp only [eventuallyUpdateResourceStates, hpend, List.foldl_cons, List.foldl_nil,
      updateGroupsStep, hlk, hx]
    simp

/-- Setting the resource states of a registered group with a clean dirty set
stores the new list, marks the group dirty and runs the update flush. -/
theorem setResourceStates_registered (sc : ExtSourceControl) (gh : Nat)
    (rs : List ResourceState) (g : ExtGroup)
    (hlk : lookupA sc.groupStore gh = some g)
    (hreg : sc.registered.contains gh = true)
    (hpend : sc.updatedPending = []) :
    setResourceStates sc gh rs
      = eventuallyUpdateResourceStates
          ({ sc with groupStore := setA sc.groupStore gh ({ g with resourceStates := rs }),
                     updatedPending := [gh] }) := by
  have hc : (([] : List Nat).contains gh) = false := rfl
  simp only [setResourceStates, hlk, hreg, hpend, hc]
  simp

/-- C2 (amended): the `@debounce` decorators are commented out, so both
coalescing methods flush synchronously on every mutation.  Creating a group
from a state with nothing pending emits exactly one `$registerGroups`
message carrying exactly that one group (so N synchronous creations emit N
one-group messages, not one message with N groups); updating a registered
group's resource states emits exactly one `$spliceResourceStates` message
covering exactly that group when its diff is non-empty and nothing when the
diff is empty (so M synchronous updates emit up to M messages); re-running
the update flush with nothing pending emits nothing. -/
theorem c2_per_mutation_flush :
    (∀ (pool : Nat) (sc : ExtSourceControl) (id label : String),
      sc.createdPending = [] →
      lookupA sc.groupStore pool = none →
      (createResourceGroup pool sc id label).2.2
        = [WireMsg.registerGroups sc.handle [(pool, id, label, ⟨none⟩)] []])
    ∧ (∀ (sc : ExtSourceControl) (gh : Nat) (rs : List ResourceState) (g : ExtGroup),
      sc.updatedPending = [] →
      sc.registered.contains gh = true →
      lookupA sc.groupStore gh = some g →
      ((takeResourceStateSnapshot ({ g with resourceStates := rs })).2 ≠ [] →
        (setResourceStates sc gh rs).2
          = [WireMsg.spliceResourceStates sc.handle
              [(gh, (takeResourceStateSnapshot ({ g with resourceStates := rs })).2)]])
      ∧ ((takeResourceStateSnapshot ({ g with resourceStates := rs })).2 = [] →
        (setResourceStates sc gh rs).2 = []))
    ∧ (∀ sc : ExtSourceControl, sc.updatedPending = [] →
        (eventuallyUpdateResourceStates sc).2 = []) := by
  refine ⟨?_, ?_, ?_⟩
  · intro pool sc id label hpend hfresh
    simp only [createResourceGroup, eventuallyAddResourceGroups, hpend, List.nil_append,
      List.foldl_cons, List.foldl_nil, addGroupsStep, lookupA_append_fresh _ _ _ hfresh,
      takeSnapshot_fresh]
    rfl
  · intro sc gh rs g hpend hreg hlk
    have hstep := setResourceStates_registered sc gh rs g hlk hreg hpend
    have hrun := eventuallyUpdate_single
      ({ sc with groupStore := setA sc.groupStore gh ({ g with resourceStates := rs }),
                 updatedPending := [gh] })
      gh ({ g with resourceStates := rs }) rfl (lookupA_setA_self _ _ _)
    constructor
    · intro hne
      have hlen : ((takeResourceStateSnapshot ({ g with resourceStates := rs })).2).length ≠ 0 :=
        fun h => hne (List.length_eq_zero.mp h)
      rw [hstep, hrun, if_neg hlen]
    · intro he
      rw [hstep, hrun, if_pos (by rw [he]; rfl)]
  · intro sc hpend
    simp [eventuallyUpdateResourceStates, hpend]

/-- The source control before the C2 scenario. -/
def c2Sc : ExtSourceControl := bareSourceControl 0 "git" "Git"

/-- First synchronous group creation. -/
def c2Step1 : Nat × ExtSourceControl × List WireMsg := createResourceGroup 0 c2Sc "index" "Index"

/-- Second synchronous group creation. -/
def c2Step2 : Nat × ExtSourceControl × List WireMsg :=
  createResourceGroup c2Step1.1 c2Step1.2.1 "wt" "Working Tree"

/-- C2, as stated, is false: creating N = 2 groups synchronously does not
produce a single `$registerGroups` message carrying both groups — each
creation flushes immediately (the debounce is commented out), producing two
messages, each carrying exactly one group. -/
theorem c2_single_message_counterexample :
    c2Step1.2.2 = [WireMsg.registerGroups 0 [(0, "index", "Index", ⟨none⟩)] []]
    ∧ c2Step2.2.2 = [WireMsg.registerGroups 0 [(1, "wt", "Working Tree", ⟨none⟩)] []]
    ∧ (c2Step1.2.2 ++ c2Step2.2.2).length = 2 := by
  refine ⟨by decide, by decide, by decide⟩

/-- A source control with one registered group (handle 0) and a clean
pending state. -/
def c2ScReg : ExtSourceControl :=
  { bareSourceControl 0 "git" "Git" with
      groupStore := [(0, mkExtGroup 0 "index" "Index")]
      registered := [0] }

/-- Witness of the amended C2 theorem: a creation flush, a non-empty update
flush, an empty update flush and an idle re-flush at concrete states. -/
theorem c2_per_mutation_flush_witness :
    (createResourceGroup 0 c2Sc "index" "Index").2.2
      = [WireMsg.registerGroups 0 [(0, "index", "Index", ⟨none⟩)] []]
    ∧ (setResourceStates c2ScReg 0 [plainState "/a"]).2
        = [WireMsg.spliceResourceStates 0
            [(0, (takeResourceStateSnapshot
              ({ mkExtGroup 0 "index" "Index" with resourceStates := [plainState "/a"] })).2)]]
    ∧ (setResourceStates c2ScReg 0 []).2 = []
    ∧ (eventuallyUpdateResourceStates c2Sc).2 = [] := by
  have h := c2_per_mutation_flush
  refine ⟨h.1 0 c2Sc "index" "Index" rfl rfl, ?_, ?_, h.2.2 c2Sc rfl⟩
  · exact (h.2.1 c2ScReg 0 [plainState "/a"] (mkExtGroup 0 "index" "Index")
      rfl rfl rfl).1 (by decide)
  · exact (h.2.1 c2ScReg 0 [] (mkExtGroup 0 "index" "Index") rfl rfl rfl).2 (by decide)

/-- C3 (amended): a flush of `eventuallyUpdateResourceStates` whose change
set is empty (every dirty group's computed splice set is empty) sends
nothing; but a flush of `eventuallyAddResourceGroups` always sends one
`$registerGroups` message — with no groups and no splices when nothing is
pending — rather than sending nothing. -/
theorem c3_empty_flush :
    (∀ sc : ExtSourceControl,
      sc.updatedPending.Nodup →
      (∀ gh g, gh ∈ sc.updatedPending → lookupA sc.groupStore gh = some g →
        (takeResourceStateSnapshot g).2 = []) →
      (eventuallyUpdateResourceStates sc).2 = [])
    ∧ (∀ sc : ExtSourceControl, sc.createdPending = [] →
        (eventuallyAddResourceGroups sc).2 = [WireMsg.registerGroups sc.handle [] []]) := by
  constructor
  · intro sc hnd hsnap
    have hfold := updateFold_no_splices sc.updatedPending sc [] hnd hsnap
    simp only [eventuallyUpdateResourceStates, hfold]
    rfl
  · intro sc hpend
    simp [eventuallyAddResourceGroups, hpend]

/-- C3, as stated, is false: flushing an empty change set through
`eventuallyAddResourceGroups` still sends a `$registerGroups` wire message
(with empty payload), because the send is unconditional (scm.ts line 603). -/
theorem c3_unconditional_register_counterexample :
    (eventuallyAddResourceGroups c2Sc).2 = [WireMsg.registerGroups 0 [] []]
    ∧ (eventuallyAddResourceGroups c2Sc).2 ≠ [] := by
  refine ⟨by decide, by decide⟩

/-- A control with one registered, undirtied-diff group marked dirty. -/
def c3ScDirty : ExtSourceControl := { c2ScReg with updatedPending := [0] }

/-- Witness of the amended C3 theorem at concrete states. -/
theorem c3_empty_flush_witness :
    (eventuallyUpdateResourceStates c3ScDirty).2 = []
    ∧ (eventuallyAddResourceGroups c2Sc).2 = [WireMsg.registerGroups 0 [] []] := by
  have h := c3_empty_flush
  refine ⟨?_, h.2 c2Sc rfl⟩
  refine h.1 c3ScDirty (by decide) ?_
  intro gh g hm hl
  have hgh : gh = 0 := by
    simpa [c3ScDirty, c2ScReg] using hm
  subst hgh
  have hg2 : mkExtGroup 0 "index" "Index" = g := by
    simpa [c3ScDirty, c2ScReg, bareSourceControl, lookupA] using hl
  subst hg2
  rfl

/-! ## Claim C8: round-trip of the first snapshot -/

/-- Unfolding equation for the snapshot of one inserted resource. -/
theorem snapshotInsertOne_spec (g : ExtGroup) (r : ResourceState) :
    (snapshotInsertOne g r).2 = (encodeRawResource g.resourceHandlePool r, g.resourceHandlePool)
    ∧ (snapshotInsertOne g r).1.resourceHandlePool = g.resourceHandlePool + 1
    ∧ (snapshotInsertOne g r).1.handlesSnapshot = g.handlesSnapshot := by
  cases hr : r.command with
  | none => simp [snapshotInsertOne, hr]
  | some c =>
    by_cases ht : c.command = some "theia.open" ∨ c.command = some "theia.diff"
    · simp [snapshotInsertOne, hr, ht]
    · simp [snapshotInsertOne, hr, ht]

/-- Unfolding equation for the insertion loop on a non-empty list. -/
theorem snapshotInsertMany_cons (g : ExtGroup) (r : ResourceState) (rest : List ResourceState) :
    snapshotInsertMany g (r :: rest)
      = ((snapshotInsertMany (snapshotInsertOne g r).1 rest).1,
         (snapshotInsertOne g r).2 :: (snapshotInsertMany (snapshotInsertOne g r).1 rest).2) := rfl

/-- The insertion loop encodes the inserted states in order, pairing each
with the next handle from the pool. -/
theorem snapshotInsertMany_spec :
    ∀ (rs : List ResourceState) (g : ExtGroup),
      (snapshotInsertMany g rs).2
        = (List.enumFrom g.resourceHandlePool rs).map
            (fun p => (encodeRawResource p.1 p.2, p.1))
      ∧ (snapshotInsertMany g rs).1.resourceHandlePool = g.resourceHandlePool + rs.length
      ∧ (snapshotInsertMany g rs).1.handlesSnapshot = g.handlesSnapshot := by
  intro rs
  induction rs with
  | nil => intro g; exact ⟨rfl, rfl, rfl⟩
  | cons r rest ih =>
    intro g
    obtain ⟨h2, hpool, hhs⟩ := snapshotInsertOne_spec g r
    obtain ⟨ih2, ihpool, ihhs⟩ := ih (snapshotInsertOne g r).1
    refine ⟨?_, ?_, ?_⟩
    · rw [snapshotInsertMany_cons, ih2, hpool, h2]
      simp [List.enumFrom]
    · rw [snapshotInsertMany_cons]
      simp only [ihpool, hpool, List.length_cons]
      omega
    · rw [snapshotInsertMany_cons]
      simp only [ihhs, hhs]

/-- Unfolding equation for the diff-processing loop on a non-empty list. -/
theorem snapshotProcessDiffs_cons (g : ExtGroup) (d : Splice ResourceState)
    (rest : List (Splice ResourceState)) :
    snapshotProcessDiffs g (d :: rest)
      = ((snapshotProcessDiffs (snapshotInsertMany g d.toInsert).1 rest).1,
         Splice.mk d.start d.deleteCount (snapshotInsertMany g d.toInsert).2
           :: (snapshotProcessDiffs (snapshotInsertMany g d.toInsert).1 rest).2) := rfl

/-- The wire splices of a snapshot are the processed diffs. -/
theorem takeResourceStateSnapshot_splices (g : ExtGroup) :
    (takeResourceStateSnapshot g).2
      = ((snapshotProcessDiffs g
          (sortedDiff g.resourceSnapshot
            (jsSortStable compareResourceStates g.resourceStates) compareResourceStates)).2).map
          rawSpliceOf := rfl

/-- The sorted diff against an empty previous snapshot is a single splice
inserting the whole new snapshot (or nothing when it is empty). -/
theorem sortedDiff_nil_before {α : Type} (cmp : α → α → Int) :
    ∀ l : List α, sortedDiff [] l cmp
      = (match l with | [] => [] | x :: xs => [⟨0, 0, x :: xs⟩]) := by
  intro l
  cases l with
  | nil => rfl
  | cons x xs => rfl

/-- C8: registering a group with declared resource states `rs` and taking the
first snapshot (previous snapshot empty), then applying the produced splices
to an empty mirror resource list, yields exactly the mirror decodings of the
sorted declared states — one per state, in sorted order, with the fresh
handles 0, 1, 2, … attached by the encoder. -/
theorem c8_first_snapshot_roundtrip (sch gh : Nat) (id label : String)
    (rs : List ResourceState) :
    mirrorApplyBatch sch gh []
        (takeResourceStateSnapshot ({ mkExtGroup gh id label with resourceStates := rs })).2
      = (List.enumFrom 0 (jsSortStable compareResourceStates rs)).map
          (fun p => toMirrorResource sch gh (encodeRawResource p.1 p.2)) := by
  rw [takeResourceStateSnapshot_splices]
  have hsort :
      jsSortStable compareResourceStates
          ({ mkExtGroup gh id label with resourceStates := rs }).resourceStates
        = jsSortStable compareResourceStates rs := rfl
  rw [hsort]
  have hprev : ({ mkExtGroup gh id label with resourceStates := rs }).resourceSnapshot = [] := rfl
  rw [hprev, sortedDiff_nil_before]
  cases hs : jsSortStable compareResourceStates rs with
  | nil => rfl
  | cons s0 srest =>
    rw [snapshotProcessDiffs_cons]
    obtain ⟨hmany, _, _⟩ :=
      snapshotInsertMany_spec (s0 :: srest) ({ mkExtGroup gh id label with resourceStates := rs })
    have hpool : ({ mkExtGroup gh id label with resourceStates := rs }).resourceHandlePool = 0 :=
      rfl
    rw [hpool] at hmany
    show mirrorApplyBatch sch gh []
        [rawSpliceOf (Splice.mk 0 0
          (snapshotInsertMany ({ mkExtGroup gh id label with resourceStates := rs })
            (s0 :: srest)).2)] = _
    rw [hmany]
    simp [mirrorApplyBatch, applySplices, applySplice, rawSpliceOf, List.map_map,
      Function.comp]

/-! ## Claim C7: handle allocation -/

/-- The diff-processing loop advances the handle pool by the total insertion
count, hands out exactly the handles of that fresh range, and does not touch
the handle snapshot. -/
theorem snapshotProcessDiffs_spec :
    ∀ (diffs : List (Splice ResourceState)) (g : ExtGroup),
      (snapshotProcessDiffs g diffs).1.resourceHandlePool
          = g.resourceHandlePool + (diffs.map (fun d => d.toInsert.length)).sum
      ∧ ((snapshotProcessDiffs g diffs).2.map (fun s => s.toInsert.map Prod.snd)).flatten
          = List.range' g.resourceHandlePool ((diffs.map (fun d => d.toInsert.length)).sum)
      ∧ (snapshotProcessDiffs g diffs).1.handlesSnapshot = g.handlesSnapshot := by
  intro diffs
  induction diffs with
  | nil =>
    intro g
    refine ⟨by simp [snapshotProcessDiffs], by simp [snapshotProcessDiffs], rfl⟩
  | cons d rest ih =>
    intro g
    obtain ⟨hm2, hmpool, hmhs⟩ := snapshotInsertMany_spec d.toInsert g
    obtain ⟨ihpool, ihflat, ihhs⟩ := ih (snapshotInsertMany g d.toInsert).1
    have hhandles : (snapshotInsertMany g d.toInsert).2.map Prod.snd
        = List.range' g.resourceHandlePool d.toInsert.length := by
      rw [hm2, List.map_map]
      rw [show (Prod.snd ∘ fun p : Nat × ResourceState => (encodeRawResource p.1 p.2, p.1))
          = (Prod.fst : Nat × ResourceState → Nat) from rfl]
      exact List.enumFrom_map_fst g.resourceHandlePool d.toInsert
    refine ⟨?_, ?_, ?_⟩
    · rw [snapshotProcessDiffs_cons]
      simp only [ihpool, hmpool, List.map_cons, List.sum_cons]
      omega
    · rw [snapshotProcessDiffs_cons]
      simp only [List.map_cons, List.flatten_cons, List.sum_cons]
      rw [hhandles]
      rw [ihflat, hmpool]
      have hr := List.range'_append g.resourceHandlePool d.toInsert.length
        ((rest.map fun d2 => d2.toInsert.length).sum) 1
      simp only [one_mul] at hr
      rw [hr]
      congr 1
      omega
    · rw [snapshotProcessDiffs_cons]
      simp only [ihhs, hmhs]

/-- The handle bookkeeping loop replays the handle splices over the handle
snapshot and leaves the pool unchanged. -/
theorem handleFold_spec :
    ∀ (l : List (Splice (RawResource × Nat))) (g : ExtGroup),
      (l.foldl (fun gg s => spliceHandles gg (handleSpliceOf s)) g).handlesSnapshot
          = applySplices g.handlesSnapshot (l.map handleSpliceOf)
      ∧ (l.foldl (fun gg s => spliceHandles gg (handleSpliceOf s)) g).resourceHandlePool
          = g.resourceHandlePool := by
  intro l
  induction l with
  | nil => intro g; exact ⟨rfl, rfl⟩
  | cons s rest ih =>
    intro g
    obtain ⟨ih1, ih2⟩ := ih (spliceHandles g (handleSpliceOf s))
    exact ⟨ih1, ih2⟩

/-- Splice application preserves distinctness when the list and all inserted
elements are jointly distinct, and never invents elements. -/
theorem nodup_applySplices {α : Type} :
    ∀ (sps : List (Splice α)) (l : List α),
      (l ++ (sps.map Splice.toInsert).flatten).Nodup →
      (applySplices l sps).Nodup
      ∧ ∀ x ∈ applySplices l sps, x ∈ l ++ (sps.map Splice.toInsert).flatten := by
  intro sps
  induction sps with
  | nil =>
    intro l h
    simp only [List.map_nil, List.flatten_nil, List.append_nil] at h
    refine ⟨h, ?_⟩
    intro x hx
    simp only [applySplices, List.foldl_nil] at hx
    simp [hx]
  | cons s rest ih =>
    intro l h
    have hnm : s.start ≤ s.start + s.deleteCount := Nat.le_add_right _ _
    have hsub : (l.take s.start ++ l.drop (s.start + s.deleteCount)).Sublist l := by
      have h2 : (l.take (s.start + s.deleteCount)).take s.start = l.take s.start := by
        rw [List.take_take, inf_eq_left.mpr hnm]
      have h3 : ((l.take (s.start + s.deleteCount)).take s.start).Sublist
          (l.take (s.start + s.deleteCount)) := List.take_sublist _ _
      rw [h2] at h3
      have h4 := List.Sublist.append h3 (List.Sublist.refl (l.drop (s.start + s.deleteCount)))
      rw [List.take_append_drop] at h4
      exact h4
    have hperm : (applySplice l s ++ (rest.map Splice.toInsert).flatten).Perm
        ((l.take s.start ++ l.drop (s.start + s.deleteCount))
          ++ (s.toInsert ++ (rest.map Splice.toInsert).flatten)) := by
      simp only [applySplice, List.append_assoc]
      refine List.Perm.append_left _ ?_
      have hp := (@List.perm_append_comm _ s.toInsert
        (l.drop (s.start + s.deleteCount))).append_right
        ((rest.map Splice.toInsert).flatten)
      simpa [List.append_assoc] using hp
    have hmain : (l ++ (s.toInsert ++ (rest.map Splice.toInsert).flatten)).Nodup := by
      simpa [List.flatten_cons] using h
    have hsub2 : ((l.take s.start ++ l.drop (s.start + s.deleteCount))
          ++ (s.toInsert ++ (rest.map Splice.toInsert).flatten)).Sublist
        (l ++ (s.toInsert ++ (rest.map Splice.toInsert).flatten)) :=
      List.Sublist.append hsub (List.Sublist.refl _)
    have hnd2 : (applySplice l s ++ (rest.map Splice.toInsert).flatten).Nodup :=
      hperm.symm.nodup (hsub2.nodup hmain)
    obtain ⟨ihnd, ihsub⟩ := ih (applySplice l s) hnd2
    refine ⟨ihnd, ?_⟩
    intro x hx
    have hx2 := ihsub x hx
    have hx3 := (hperm.mem_iff).mp hx2
    have hx4 : x ∈ l ++ (s.toInsert ++ (rest.map Splice.toInsert).flatten) :=
      hsub2.subset hx3
    simpa [List.flatten_cons] using hx4

/-- Unfolding equation for the final group state of a snapshot. -/
theorem takeResourceStateSnapshot_fst (g : ExtGroup) :
    (takeResourceStateSnapshot g).1
      = { (((snapshotProcessDiffs g (sortedDiff g.resourceSnapshot
            (jsSortStable compareResourceStates g.resourceStates) compareResourceStates)).2.reverse).foldl
            (fun gg s => spliceHandles gg (handleSpliceOf s))
            ((snapshotProcessDiffs g (sortedDiff g.resourceSnapshot
              (jsSortStable compareResourceStates g.resourceStates) compareResourceStates)).1))
          with resourceSnapshot := jsSortStable compareResourceStates g.resourceStates } := rfl

/-- The per-group handle invariant: the wire handles aligned to the last
snapshot are pairwise distinct and all below the allocation pool. -/
def groupInv (g : ExtGroup) : Prop :=
  g.handlesSnapshot.Nodup ∧ ∀ h ∈ g.handlesSnapshot, h < g.resourceHandlePool

/-- The snapshot preserves the handle invariant and never decreases the
pool: freshly allocated handles come from the advanced range, so no two live
handles of a group ever coincide. -/
theorem takeSnapshot_groupInv (g : ExtGroup) (hinv : groupInv g) :
    groupInv (takeResourceStateSnapshot g).1
    ∧ g.resourceHandlePool ≤ (takeResourceStateSnapshot g).1.resourceHandlePool := by
  obtain ⟨hnd, hbound⟩ := hinv
  obtain ⟨hpool, hflat, hhs⟩ := snapshotProcessDiffs_spec
    (sortedDiff g.resourceSnapshot
      (jsSortStable compareResourceStates g.resourceStates) compareResourceStates) g
  obtain ⟨hfold1, hfold2⟩ := handleFold_spec
    ((snapshotProcessDiffs g (sortedDiff g.resourceSnapshot
      (jsSortStable compareResourceStates g.resourceStates) compareResourceStates)).2.reverse)
    ((snapshotProcessDiffs g (sortedDiff g.resourceSnapshot
      (jsSortStable compareResourceStates g.resourceStates) compareResourceStates)).1)
  have hfinalhs : (takeResourceStateSnapshot g).1.handlesSnapshot
      = applySplices g.handlesSnapshot
          (((snapshotProcessDiffs g (sortedDiff g.resourceSnapshot
            (jsSortStable compareResourceStates g.resourceStates) compareResourceStates)).2.reverse).map
            handleSpliceOf) := by
    have hx := hfold1
    rw [hhs] at hx
    exact hx
  have hfinalpool : (takeResourceStateSnapshot g).1.resourceHandlePool
      = g.resourceHandlePool
        + (((sortedDiff g.resourceSnapshot
            (jsSortStable compareResourceStates g.resourceStates) compareResourceStates)).map
            (fun d => d.toInsert.length)).sum := by
    have hx := hfold2
    rw [hpool] at hx
    exact hx
  have hflatrev : ((((snapshotProcessDiffs g (sortedDiff g.resourceSnapshot
        (jsSortStable compareResourceStates g.resourceStates) compareResourceStates)).2.reverse).map
        handleSpliceOf).map Splice.toInsert).flatten.Perm
      (List.range' g.resourceHandlePool
        (((sortedDiff g.resourceSnapshot
          (jsSortStable compareResourceStates g.resourceStates) compareResourceStates)).map
          (fun d => d.toInsert.length)).sum) := by
    have h1 : (((snapshotProcessDiffs g (sortedDiff g.resourceSnapshot
          (jsSortStable compareResourceStates g.resourceStates) compareResourceStates)).2.reverse).map
          handleSpliceOf).map Splice.toInsert
        = ((snapshotProcessDiffs g (sortedDiff g.resourceSnapshot
          (jsSortStable compareResourceStates g.resourceStates) compareResourceStates)).2.map
          (fun s => s.toInsert.map Prod.snd)).reverse := by
      simp [List.map_reverse, List.map_map, Function.comp, handleSpliceOf]
    rw [h1]
    have h2 := (List.reverse_perm ((snapshotProcessDiffs g (sortedDiff g.resourceSnapshot
      (jsSortStable compareResourceStates g.resourceStates) compareResourceStates)).2.map
      (fun s => s.toInsert.map Prod.snd))).flatten
    rw [hflat] at h2
    exact h2
  have hbig : (g.handlesSnapshot
      ++ ((((snapshotProcessDiffs g (sortedDiff g.resourceSnapshot
        (jsSortStable compareResourceStates g.resourceStates) compareResourceStates)).2.reverse).map
        handleSpliceOf).map Splice.toInsert).flatten).Nodup := by
    rw [List.nodup_append]
    refine ⟨hnd, hflatrev.symm.nodup (List.nodup_range' _ _), ?_⟩
    intro a ha hb2
    have h3 := (hflatrev.mem_iff).mp hb2
    have h4 := List.mem_range'_1.mp h3
    have h5 := hbound a ha
    omega
  obtain ⟨hndfinal, hsubfinal⟩ := nodup_applySplices
    ((((snapshotProcessDiffs g (sortedDiff g.resourceSnapshot
      (jsSortStable compareResourceStates g.resourceStates) compareResourceStates)).2.reverse).map
      handleSpliceOf)) g.handlesSnapshot hbig
  refine ⟨⟨?_, ?_⟩, ?_⟩
  · rw [hfinalhs]; exact hndfinal
  · intro x hx
    rw [hfinalhs] at hx
    have hmem := hsubfinal x hx
    rw [hfinalpool]
    rcases List.mem_append.mp hmem with hin | hin
    · exact lt_of_lt_of_le (hbound x hin) (Nat.le_add_right _ _)
    · have h3 := (hflatrev.mem_iff).mp hin
      have h4 := List.mem_range'_1.mp h3
      omega
  · rw [hfinalpool]
    exact Nat.le_add_right _ _

/-- C7: each object category allocates its handles from a monotonically
increasing counter and a handle is never reused: per-group resource handles
preserve the `groupInv` invariant across any snapshot (the live handle list
stays duplicate-free and below the strictly advancing pool), a new group
handle is the current class-wide pool value — fresh with respect to every
previously allocated group handle — and a new source-control handle is the
current pool value, fresh with respect to every previously allocated one. -/
theorem c7_monotone_fresh_handles :
    (∀ g : ExtGroup, groupInv g →
      groupInv (takeResourceStateSnapshot g).1
      ∧ g.resourceHandlePool ≤ (takeResourceStateSnapshot g).1.resourceHandlePool)
    ∧ (∀ (pool : Nat) (sc : ExtSourceControl) (id label : String),
        (∀ k ∈ sc.groupStore.map Prod.fst, k < pool) →
        (createResourceGroup pool sc id label).1 = pool + 1
        ∧ pool ∉ sc.groupStore.map Prod.fst)
    ∧ (∀ (w : ScmWorld) (id label : String),
        (∀ k ∈ w.sourceControls.map Prod.fst, k < w.scHandlePool) →
        (createSourceControl w id label).1.scHandlePool = w.scHandlePool + 1
        ∧ (createSourceControl w id label).2 ∉ w.sourceControls.map Prod.fst) := by
  refine ⟨fun g hinv => takeSnapshot_groupInv g hinv, ?_, ?_⟩
  · intro pool sc id label hb
    refine ⟨rfl, ?_⟩
    intro hmem
    exact absurd (hb pool hmem) (lt_irrefl pool)
  · intro w id label hb
    refine ⟨rfl, ?_⟩
    intro hmem
    exact absurd (hb _ hmem) (lt_irrefl _)

/-- A group mid-life: three live handles below the pool. -/
def c7Group : ExtGroup :=
  { mkExtGroup 0 "index" "Index" with
      resourceHandlePool := 5
      handlesSnapshot := [2, 0, 4]
      resourceSnapshot := [plainState "/a", plainState "/b", plainState "/c"]
      resourceStates := [plainState "/a", plainState "/d"] }

/-- Witness of C7 at a concrete group, source control and world. -/
theorem c7_monotone_fresh_handles_witness :
    groupInv c7Group
    ∧ groupInv (takeResourceStateSnapshot c7Group).1
    ∧ c7Group.resourceHandlePool ≤ (takeResourceStateSnapshot c7Group).1.resourceHandlePool
    ∧ (createResourceGroup 1 c2ScReg "wt" "Working Tree").1 = 2 := by
  have hinv : groupInv c7Group := by
    constructor
    · decide
    · intro h hmem
      fin_cases hmem <;> decide
  have h := c7_monotone_fresh_handles
  have h1 := (h.1 c7Group hinv)
  have h2 := (h.2.1 1 c2ScReg "wt" "Working Tree" ?hb)
  case hb =>
    intro k hk
    simp [c2ScReg, bareSourceControl] at hk
    omega
  exact ⟨hinv, h1.1, h1.2, h2.1⟩
